import Mathlib

/-!
# Response rewriting of `rewriteng` (response.go)

A shallow embedding of `response.go`: the `ResponseRewriter`, its three section
passes and the per-record-type data rewrite, together with the parts of the Go
standard library (`net.ParseIP`, `net.IP.String`, `net.IP.To4`) and of the
`dns` message model that the file relies on.

Modelling conventions.
* Go strings are Lean `String`s; `s != ""` is `s ≠ ""`.
* A `net.IP` is the list of its bytes; the nil slice is `[]`.
* A `dns.RR` is a header plus a payload whose constructor is the concrete Go
  type of the record.
* The section passes are given twice. `rewriteAnswers`, `rewriteAuthority`,
  `rewriteAdditional` and `ResponseRewriter.WriteMsg` work on record values:
  they describe a message in which every entry of a section is a record object
  of its own. `Ptr.rewriteAnswers`, `Ptr.rewriteAuthority`,
  `Ptr.rewriteAdditional` and `Ptr.WriteMsg` work on record objects in a heap,
  with the sections listing addresses, and so cover a record object that is
  listed more than once. `Ptr_WriteMsg_unshared` shows that the two agree when
  no object is listed twice.
* A Go panic (index out of range) is `Except.error`.
-/

namespace Rewriteng

/-! ## Go standard library: `net.IP` -/

/-- A `net.IP`: a byte slice (4 or 16 bytes when well formed, `[]` for nil). -/
abbrev IP := List Nat

/-- The constant `net.IPv4len`. -/
def IPv4len : Nat := 4

/-- The constant `net.IPv6len`. -/
def IPv6len : Nat := 16

/-- Decimal digits of a byte, as `ubtoa` writes them. -/
def ubtoa (v : Nat) : List Char :=
  if v < 10 then [Char.ofNat (48 + v)]
  else if v < 100 then [Char.ofNat (48 + v / 10), Char.ofNat (48 + v % 10)]
  else [Char.ofNat (48 + v / 100), Char.ofNat (48 + (v / 10) % 10), Char.ofNat (48 + v % 10)]

/-- The table `hexDigit = "0123456789abcdef"`. -/
def hexDigit (v : Nat) : Char :=
  if v < 10 then Char.ofNat (48 + v) else Char.ofNat (87 + v)

/-- Lower-case hexadecimal of a 16-bit group without leading zeros (`appendHex`). -/
def appendHex (i : Nat) : List Char :=
  if i = 0 then ['0']
  else
    (if i / 4096 > 0 then [hexDigit ((i / 4096) % 16)] else []) ++
    (if i / 256 > 0 then [hexDigit ((i / 256) % 16)] else []) ++
    (if i / 16 > 0 then [hexDigit ((i / 16) % 16)] else []) ++
    [hexDigit (i % 16)]

/-- Two hexadecimal digits per byte (`hexString`). -/
def hexString (b : List Nat) : List Char :=
  b.flatMap (fun tn => [hexDigit ((tn / 16) % 16), hexDigit (tn % 16)])

/-- The method `IP.To4`: the 4-byte form of an IPv4 address, `none` (nil) when the
address is not an IPv4 address. -/
def To4 (ip : IP) : Option IP :=
  if ip.length = IPv4len then some ip
  else if ip.length = IPv6len ∧ ip.take 10 = List.replicate 10 0 ∧
      ip.getD 10 0 = 255 ∧ ip.getD 11 0 = 255 then some (ip.drop 12)
  else none

/-- The inner loop of the zero-run search: the byte index at which the run of
zero 16-bit groups of `p` starting at byte `j` ends. -/
def zeroRunEnd (p : IP) : Nat → Nat → Nat
  | 0, j => j
  | fuel + 1, j =>
    if j < IPv6len ∧ p.getD j 1 = 0 ∧ p.getD (j + 1) 1 = 0 then zeroRunEnd p fuel (j + 2) else j

/-- The search for the longest run of zero groups: returns `(e0, e1)` as
integers, `(-1, -1)` when there is none. -/
def longestZeroRun (p : IP) : Nat → Nat → Int × Int → Int × Int
  | 0, _, e => e
  | fuel + 1, i, e =>
    if i < IPv6len then
      let j := zeroRunEnd p 8 i
      if j > i ∧ (j : Int) - (i : Int) > e.2 - e.1 then
        longestZeroRun p fuel (j + 2) ((i : Int), (j : Int))
      else longestZeroRun p fuel (i + 2) e
    else e

/-- The printing loop of the IPv6 text form, with `::` in place of the run
`[e0, e1)`. -/
def printGroups (p : IP) (e0 e1 : Int) : Nat → Nat → List Char → List Char
  | 0, _, b => b
  | fuel + 1, i, b =>
    if i < IPv6len then
      if (i : Int) = e0 then
        let b1 := b ++ [':', ':']
        let i1 := e1.toNat
        if i1 ≥ IPv6len then b1
        else printGroups p e0 e1 fuel (i1 + 2) (b1 ++ appendHex (p.getD i1 0 * 256 + p.getD (i1 + 1) 0))
      else
        let b1 := if i > 0 then b ++ [':'] else b
        printGroups p e0 e1 fuel (i + 2) (b1 ++ appendHex (p.getD i 0 * 256 + p.getD (i + 1) 0))
    else b

/-- The method `IP.String`. -/
def IP.String (ip : IP) : String :=
  if ip.length = 0 then "<nil>"
  else
    match To4 ip with
    | some p4 =>
      if p4.length = IPv4len then
        String.mk (ubtoa (p4.getD 0 0) ++ ['.'] ++ ubtoa (p4.getD 1 0) ++ ['.'] ++
          ubtoa (p4.getD 2 0) ++ ['.'] ++ ubtoa (p4.getD 3 0))
      else String.mk (['?'] ++ hexString ip)
    | none =>
      if ip.length ≠ IPv6len then String.mk (['?'] ++ hexString ip)
      else
        let e := longestZeroRun ip 8 0 (-1, -1)
        let e' : Int × Int := if e.2 - e.1 ≤ 2 then (-1, -1) else e
        String.mk (printGroups ip e'.1 e'.2 8 0 [])

/-! ## Go standard library: `net.ParseIP` -/

/-- The test `s[i] >= '0' && s[i] <= '9'`. -/
def isDigit (c : Char) : Bool := decide ('0'.toNat ≤ c.toNat ∧ c.toNat ≤ '9'.toNat)

/-- The loop of `parseIPv4Fields` over the remaining text. `atStart` is `i == 0`,
`prevDot` is `s[i-1] == '.'`; `fields` holds the octets stored so far. -/
def parseIPv4Fields : List Char → Bool → Bool → Nat → Nat → Nat → List Nat → Option (List Nat)
  | [], _, _, val, pos, _, fields => if pos < 3 then none else some (fields ++ [val])
  | c :: rest, atStart, prevDot, val, pos, digLen, fields =>
    if isDigit c then
      if digLen = 1 ∧ val = 0 then none
      else
        let val1 := val * 10 + (c.toNat - '0'.toNat)
        if val1 > 255 then none
        else parseIPv4Fields rest false false val1 pos (digLen + 1) fields
    else if c = '.' then
      if atStart ∨ rest = [] ∨ prevDot then none
      else if pos = 3 then none
      else parseIPv4Fields rest false true 0 (pos + 1) 0 (fields ++ [val])
    else none

/-- Dotted-quad text to its four octets. -/
def parseIPv4 (s : List Char) : Option (List Nat) :=
  parseIPv4Fields s true false 0 0 0 []

/-- Value of a hexadecimal digit, `none` for any other character. -/
def hexVal (c : Char) : Option Nat :=
  if '0'.toNat ≤ c.toNat ∧ c.toNat ≤ '9'.toNat then some (c.toNat - '0'.toNat)
  else if 'a'.toNat ≤ c.toNat ∧ c.toNat ≤ 'f'.toNat then some (c.toNat - 'a'.toNat + 10)
  else if 'A'.toNat ≤ c.toNat ∧ c.toNat ≤ 'F'.toNat then some (c.toNat - 'A'.toNat + 10)
  else none

/-- The inlined hexadecimal scan of `parseIPv6`: `some (acc, off, rest)` with the
value, the number of digits consumed and the text after them; `none` when a
group has more than four digits or overflows 16 bits. -/
def hexGroup : List Char → Nat → Nat → Option (Nat × Nat × List Char)
  | [], acc, off => some (acc, off, [])
  | c :: rest, acc, off =>
    match hexVal c with
    | none => some (acc, off, c :: rest)
    | some d =>
      let acc1 := acc * 16 + d
      if off > 3 then none
      else if acc1 > 65535 then none
      else hexGroup rest acc1 (off + 1)

/-- State of the main loop of `parseIPv6` when it is left: remaining text, byte
index `i`, position of the ellipsis (`none` for -1) and the 16 bytes. -/
structure V6State where
  s : List Char
  i : Nat
  ellipsis : Option Nat
  ip : List Nat

/-- The main loop of `parseIPv6` (`for i < 16`); `none` is a parse error. -/
def parseIPv6Loop : Nat → V6State → Option V6State
  | 0, st => some st
  | fuel + 1, st =>
    if st.i < 16 then
      match hexGroup st.s 0 0 with
      | none => none
      | some (acc, off, rest) =>
        if off = 0 then none
        else if rest.head? = some '.' then
          if st.ellipsis = none ∧ st.i ≠ 12 then none
          else if st.i + 4 > 16 then none
          else
            match parseIPv4 st.s with
            | none => none
            | some f =>
              some { s := [], i := st.i + 4, ellipsis := st.ellipsis,
                     ip := (((st.ip.set st.i (f.getD 0 0)).set (st.i + 1) (f.getD 1 0)).set
                              (st.i + 2) (f.getD 2 0)).set (st.i + 3) (f.getD 3 0) }
        else
          let ip1 := (st.ip.set st.i (acc / 256)).set (st.i + 1) (acc % 256)
          let i1 := st.i + 2
          match rest with
          | [] => some { s := [], i := i1, ellipsis := st.ellipsis, ip := ip1 }
          | c :: s1 =>
            if c ≠ ':' then none
            else
              match s1 with
              | [] => none
              | c1 :: s2 =>
                if c1 = ':' then
                  if st.ellipsis.isSome then none
                  else if s2 = [] then some { s := [], i := i1, ellipsis := some i1, ip := ip1 }
                  else parseIPv6Loop fuel { s := s2, i := i1, ellipsis := some i1, ip := ip1 }
                else parseIPv6Loop fuel { s := c1 :: s2, i := i1, ellipsis := st.ellipsis, ip := ip1 }
    else some st

/-- Expansion of the ellipsis: the bytes `[ellipsis, i)` move up by `n` and the
gap is cleared. -/
def expandEllipsis (ip : List Nat) (i ellipsis n : Nat) : List Nat :=
  let moved := (List.range (i - ellipsis)).foldl
    (fun (acc : List Nat) k => acc.set (i - 1 - k + n) (acc.getD (i - 1 - k) 0)) ip
  (List.range n).foldl (fun (acc : List Nat) k => acc.set (ellipsis + k) 0) moved

/-- The function `parseIPv6` restricted to what `net.ParseIP` accepts: an address
with a zone (`%`) is rejected. -/
def parseIPv6 (s : List Char) : Option (List Nat) :=
  if '%' ∈ s then none
  else
    let ip0 := List.replicate 16 0
    let run (st : V6State) : Option (List Nat) :=
      match parseIPv6Loop 9 st with
      | none => none
      | some st1 =>
        if st1.s ≠ [] then none
        else if st1.i < 16 then
          match st1.ellipsis with
          | none => none
          | some e => some (expandEllipsis st1.ip st1.i e (16 - st1.i))
        else if st1.ellipsis.isSome then none
        else some st1.ip
    match s with
    | ':' :: ':' :: rest =>
      if rest = [] then some ip0
      else run { s := rest, i := 0, ellipsis := some 0, ip := ip0 }
    | _ => run { s := s, i := 0, ellipsis := none, ip := ip0 }

/-- The dispatch of `netip.ParseAddr` on the first of `.`, `:` and `%` in the
text; an IPv4 result is returned in its 16-byte IPv4-mapped form. -/
def parseAddr (whole : List Char) : List Char → Option IP
  | [] => none
  | c :: rest =>
    if c = '.' then
      (parseIPv4 whole).map (fun f => List.replicate 10 0 ++ [255, 255] ++ f)
    else if c = ':' then parseIPv6 whole
    else if c = '%' then none
    else parseAddr whole rest

/-- The function `net.ParseIP`: the 16-byte address, `none` for nil. -/
def ParseIP (s : String) : Option IP := parseAddr s.data s.data

/-- The call `strings.Contains(s, sub)` for a one-character `sub`. -/
def stringsContains (s : String) (c : Char) : Bool := s.data.contains c

/-! ## The `dns` message model -/

/-- A `dns.Question`. -/
structure Question where
  Name : String
  Qtype : Nat
  Qclass : Nat
  deriving DecidableEq, Repr

/-- A `dns.RR_Header`. -/
structure RR_Header where
  Name : String
  Rrtype : Nat
  Class : Nat
  Ttl : Nat
  Rdlength : Nat
  deriving DecidableEq, Repr

/-- The type-specific part of a record; the constructor is the concrete Go type
behind the `dns.RR` interface. `MX` and `PTR` stand for themselves, `Other`
for any further record type (its type code and raw data). -/
inductive RData where
  | CNAME (Target : String)
  | TXT (Txt : List String)
  | A (A : IP)
  | AAAA (AAAA : IP)
  | NS (Ns : String)
  | SOA (Ns Mbox : String) (Serial Refresh Retry Expire Minttl : Nat)
  | SRV (Priority Weight Port : Nat) (Target : String)
  | MX (Preference : Nat) (Mx : String)
  | PTR (Ptr : String)
  | Other (code : Nat) (rdata : List Nat)
  deriving DecidableEq, Repr

/-- A `dns.RR`: header and payload. -/
structure RR where
  Hdr : RR_Header
  Data : RData
  deriving DecidableEq, Repr

/-- A `dns.MsgHdr`. -/
structure MsgHdr where
  Id : Nat
  Response : Bool
  Opcode : Nat
  Authoritative : Bool
  Truncated : Bool
  RecursionDesired : Bool
  RecursionAvailable : Bool
  Zero : Bool
  AuthenticatedData : Bool
  CheckingDisabled : Bool
  Rcode : Nat
  deriving DecidableEq, Repr

/-- A `dns.Msg`. -/
structure Msg where
  MsgHdr : MsgHdr
  Compress : Bool
  Question : List Question
  Answer : List RR
  Ns : List RR
  Extra : List RR
  deriving DecidableEq, Repr

/-- A Go `error` value. -/
abbrev Error := String

/-- The underlying `dns.ResponseWriter`, as far as `response.go` uses it: the
messages it has been asked to transmit so far, and the result (`none` for a nil
error) its `WriteMsg` gives for a message. -/
structure ResponseWriter where
  sent : List Msg
  result : Msg → Option Error

/-- The method `WriteMsg` of the underlying handle: records the transmission and
returns the handle's result. -/
def ResponseWriter.WriteMsg (w : ResponseWriter) (m : Msg) : ResponseWriter × Option Error :=
  ({ w with sent := w.sent ++ [m] }, w.result m)

/-! ## The rule matcher -/

/-- Modelled from the spec: the section tag constant `answerRule`, declared
outside response.go ("Section tag: one of {answer, authority, additional}"). -/
def answerRule : String := "answer"

/-- Modelled from the spec: the section tag constant `authorityRule`, declared
outside response.go. -/
def authorityRule : String := "authority"

/-- Modelled from the spec: the section tag constant `additionalRule`, declared
outside response.go. -/
def additionalRule : String := "additional"

/-- Modelled from the spec: the field-kind constant `namePart`, declared outside
response.go ("Field-kind tag: one of {name, data}"). -/
def namePart : String := "name"

/-- Modelled from the spec: the field-kind constant `dataPart`, declared outside
response.go. -/
def dataPart : String := "data"

/-- The type `nameRule` is declared outside response.go; the rewriter only calls
its method `Sub(input, section, fieldKind) string`, so a rule is that method.
The empty string is the "no match" result. -/
structure nameRule where
  Sub : String → String → String → String

/-! ## response.go -/

/-- A Go run-time panic. -/
inductive Panic where
  | indexOutOfRange
  deriving DecidableEq, Repr

/-- The struct `ResponseRewriter`. -/
structure ResponseRewriter where
  ResponseWriter : ResponseWriter
  originalQuestion : Question
  Rules : List nameRule

/-- The function `NewResponseRewriter`; `r.Question[0]` panics on a query
without a question. The rule list starts out nil. -/
def NewResponseRewriter (w : ResponseWriter) (r : Msg) : Except Panic ResponseRewriter :=
  match r.Question with
  | [] => Except.error Panic.indexOutOfRange
  | q :: _ => Except.ok { ResponseWriter := w, originalQuestion := q, Rules := [] }

/-- The TXT loop of `rewriteDataParts`. `arr` is the backing array shared by
`t.Txt` and `tmpRecs`, `n` the number of iterations left, `i` the range index
and `tmpLen` the length of `tmpRecs`: iteration `i` reads `arr[i]` and the
append stores at index `tmpLen` of the same array. Returns the array and the
final length of `tmpRecs`. -/
def rewriteTxtLoop (rule : nameRule) (ruleType : String) :
    Nat → Nat → List String → Nat → List String × Nat
  | 0, _, arr, tmpLen => (arr, tmpLen)
  | n + 1, i, arr, tmpLen =>
    let txtr := arr.getD i ""
    let s := rule.Sub txtr ruleType dataPart
    if s ≠ "" then rewriteTxtLoop rule ruleType n (i + 1) (arr.set tmpLen s) (tmpLen + 1)
    else rewriteTxtLoop rule ruleType n (i + 1) (arr.set tmpLen txtr) (tmpLen + 1)

/-- The function `rewriteDataParts`: the type switch on the record. -/
def rewriteDataParts (rr : RR) (rule : nameRule) (ruleType : String) : RR :=
  match rr.Data with
  | RData.CNAME Target =>
    let s := rule.Sub Target ruleType dataPart
    if s ≠ "" then { rr with Data := RData.CNAME s } else rr
  | RData.TXT Txt =>
    let r := rewriteTxtLoop rule ruleType Txt.length 0 Txt 0
    { rr with Data := RData.TXT (r.1.take r.2) }
  | RData.A A =>
    let s := rule.Sub (IP.String A) ruleType dataPart
    if s ≠ "" then
      match ParseIP s with
      | some ip => if stringsContains s '.' then { rr with Data := RData.A ip } else rr
      | none => rr
    else rr
  | RData.AAAA AAAA =>
    let s := rule.Sub (IP.String AAAA) ruleType dataPart
    if s ≠ "" then
      match ParseIP s with
      | some ip => if stringsContains s ':' then { rr with Data := RData.AAAA ip } else rr
      | none => rr
    else rr
  | RData.NS Ns =>
    let s := rule.Sub Ns ruleType dataPart
    if s ≠ "" then { rr with Data := RData.NS s } else rr
  | RData.SOA Ns Mbox Serial Refresh Retry Expire Minttl =>
    let s := rule.Sub Ns ruleType dataPart
    let Ns1 := if s ≠ "" then s else Ns
    let s2 := rule.Sub Mbox ruleType dataPart
    let Mbox1 := if s2 ≠ "" then s2 else Mbox
    { rr with Data := RData.SOA Ns1 Mbox1 Serial Refresh Retry Expire Minttl }
  | RData.SRV Priority Weight Port Target =>
    let s := rule.Sub Target ruleType dataPart
    if s ≠ "" then { rr with Data := RData.SRV Priority Weight Port s } else rr
  | _ => rr

/-- One iteration of the rule loop shared by `rewriteAnswers`, `rewriteAuthority`
and `rewriteAdditional`: the state is the record and the flag `nameWriten`;
`name` is the owner name read before the loop. -/
def ruleStep (name ruleType : String) (st : RR × Bool) (rule : nameRule) : RR × Bool :=
  let st1 : RR × Bool :=
    if !st.2 then
      let s := rule.Sub name ruleType namePart
      if s ≠ "" then ({ st.1 with Hdr := { st.1.Hdr with Name := s } }, true) else st
    else st
  (rewriteDataParts st1.1 rule ruleType, st1.2)

/-- The body of the record loop of the three section passes: the rule loop run
on one record, starting with `nameWriten = false`. -/
def rewriteRecord (rules : List nameRule) (ruleType : String) (rr : RR) : RR :=
  (rules.foldl (ruleStep rr.Hdr.Name ruleType) (rr, false)).1

/-- The method `rewriteAnswers`, on record values (every entry of the section an
object of its own); `Ptr.rewriteAnswers` is the pass on record objects. -/
def rewriteAnswers (r : ResponseRewriter) (res : Msg) : Msg :=
  { res with Answer := res.Answer.map (rewriteRecord r.Rules answerRule) }

/-- The method `rewriteAuthority`, on record values (every entry of the section
an object of its own); `Ptr.rewriteAuthority` is the pass on record objects. -/
def rewriteAuthority (r : ResponseRewriter) (res : Msg) : Msg :=
  { res with Ns := res.Ns.map (rewriteRecord r.Rules authorityRule) }

/-- The method `rewriteAdditional`, on record values (every entry of the section
an object of its own); `Ptr.rewriteAdditional` is the pass on record objects. -/
def rewriteAdditional (r : ResponseRewriter) (res : Msg) : Msg :=
  { res with Extra := res.Extra.map (rewriteRecord r.Rules additionalRule) }

/-- What a call of `ResponseRewriter.WriteMsg` leaves behind: the message as
mutated in place, the rewriter (with the state of its handle) and the returned
error. -/
structure Outcome where
  msg : Msg
  rewriter : ResponseRewriter
  err : Option Error

/-- The method `ResponseRewriter.WriteMsg`, on record values;
`res.Question[0] = ...` panics on a response without a question, before
anything else happens. `Ptr.WriteMsg` is the method on record objects. -/
def ResponseRewriter.WriteMsg (r : ResponseRewriter) (res : Msg) : Except Panic Outcome :=
  match res.Question with
  | [] => Except.error Panic.indexOutOfRange
  | _ :: qs =>
    let res1 := { res with Question := r.originalQuestion :: qs }
    let res2 := rewriteAnswers r res1
    let res3 := rewriteAuthority r res2
    let res4 := rewriteAdditional r res3
    let w := r.ResponseWriter.WriteMsg res4
    Except.ok { msg := res4, rewriter := { r with ResponseWriter := w.1 }, err := w.2 }

/-! ## Auxiliary definitions used to state and prove the properties -/

/-- The replacement policy used throughout: the matcher's result when it is
non-empty, the original string otherwise. -/
def subOrKeep (rule : nameRule) (ruleType part : String) (x : String) : String :=
  if rule.Sub x ruleType part ≠ "" then rule.Sub x ruleType part else x

/-- The effect of `rewriteDataParts` on the payload alone. -/
def rewriteData (d : RData) (rule : nameRule) (ruleType : String) : RData :=
  (rewriteDataParts { Hdr := ⟨"", 0, 0, 0, 0⟩, Data := d } rule ruleType).Data

/-- The name half of `ruleStep`: current owner name and the flag `nameWriten`. -/
def nameStep (name ruleType : String) (st : String × Bool) (rule : nameRule) : String × Bool :=
  if !st.2 then
    (if rule.Sub name ruleType namePart ≠ "" then (rule.Sub name ruleType namePart, true) else st)
  else st


/-- The owner name the spec prescribes: the result of the first rule in list
order whose `Sub` on the original name is non-empty, the original name when
there is none. -/
def specFirstMatchName (rules : List nameRule) (ruleType name : String) : String :=
  match rules.find? (fun rule => decide (rule.Sub name ruleType namePart ≠ "")) with
  | some rule => rule.Sub name ruleType namePart
  | none => name

/-- The cumulative data rewrite the spec prescribes for a single string: a left
fold over the rules, each rule receiving the previous rule's output. -/
def specCumulative (rules : List nameRule) (ruleType : String) (t : String) : String :=
  rules.foldl
    (fun cur rule => if rule.Sub cur ruleType dataPart ≠ "" then rule.Sub cur ruleType dataPart
      else cur) t

/-- Modelled from the spec: a rule scoped to one (section, field-kind) pair that
replaces exactly the string `old` by `new` and matches nothing else. The rule
implementations are outside response.go. -/
def exactRule (sec part old new : String) : nameRule :=
  { Sub := fun input s p => if s = sec ∧ p = part ∧ input = old then new else "" }

/-- Modelled from the spec: a rule that returns the fixed string `new` for every
input offered under the pair `(sec, part)` and matches nothing else. -/
def constRule (sec part new : String) : nameRule :=
  { Sub := fun _ s p => if s = sec ∧ p = part then new else "" }

/-- Modelled from the spec: a rule for section `sec`, applying to names and to
data, that maps the suffix `old` to `new` and does not match a string without
that suffix. -/
def suffixRule (sec old new : String) : nameRule :=
  { Sub := fun input s p =>
      if s = sec ∧ (p = namePart ∨ p = dataPart) ∧ old.data.isSuffixOf input.data then
        String.mk (input.data.take (input.data.length - old.data.length) ++ new.data)
      else "" }

/-- The message `WriteMsg` hands to the underlying handle when the response has
a question: `Question[0]` overwritten and the three sections rewritten. -/
def finalized (r : ResponseRewriter) (res : Msg) : Msg :=
  { res with
    Question := r.originalQuestion :: res.Question.tail
    Answer := res.Answer.map (rewriteRecord r.Rules answerRule)
    Ns := res.Ns.map (rewriteRecord r.Rules authorityRule)
    Extra := res.Extra.map (rewriteRecord r.Rules additionalRule) }

/-- The rule that answers like `rule` to calls tagged `(sec, part)` and "no
match" to every other call. -/
def restrictRule (sec part : String) (rule : nameRule) : nameRule :=
  { Sub := fun x s p => if s = sec ∧ p = part then rule.Sub x s p else "" }

/-- A rule that never matches. -/
def neverRule : nameRule := { Sub := fun _ _ _ => "" }

/-- Scenario data: a handle that has sent nothing and always succeeds. -/
def scenarioWriter : ResponseWriter := { sent := [], result := fun _ => none }

/-- Scenario data: the inbound query, with question foo.example. (CNAME, IN). -/
def scenarioQuery : Msg :=
  { MsgHdr := ⟨7, false, 0, false, false, true, false, false, false, false, 0⟩,
    Compress := false,
    Question := [⟨"foo.example.", 5, 1⟩],
    Answer := [], Ns := [], Extra := [] }

/-- Scenario data: the response, carrying the question bar.internal. and one
Answer CNAME record bar.internal. -> target.internal. -/
def scenarioResponse : Msg :=
  { MsgHdr := ⟨7, true, 0, false, false, true, true, false, false, false, 0⟩,
    Compress := false,
    Question := [⟨"bar.internal.", 5, 1⟩],
    Answer := [⟨⟨"bar.internal.", 5, 1, 300, 0⟩, RData.CNAME "target.internal."⟩],
    Ns := [], Extra := [] }

/-- Scenario data: a response with one record in each section, each carrying
the name target.internal. in its data. -/
def scopeResponse : Msg :=
  { MsgHdr := ⟨7, true, 0, false, false, true, true, false, false, false, 0⟩,
    Compress := false,
    Question := [⟨"bar.internal.", 5, 1⟩],
    Answer := [⟨⟨"bar.internal.", 5, 1, 300, 0⟩, RData.CNAME "target.internal."⟩],
    Ns := [⟨⟨"internal.", 2, 1, 300, 0⟩, RData.NS "target.internal."⟩],
    Extra := [⟨⟨"alias.internal.", 5, 1, 300, 0⟩, RData.CNAME "target.internal."⟩] }

/-- Whether the concrete type of the record is one of the seven cases of the
type switch of `rewriteDataParts`. -/
def handledType : RData → Bool
  | RData.CNAME _ => true
  | RData.TXT _ => true
  | RData.A _ => true
  | RData.AAAA _ => true
  | RData.NS _ => true
  | RData.SOA _ _ _ _ _ _ _ => true
  | RData.SRV _ _ _ _ => true
  | _ => false

/-- Modelled from the spec: a rule that matches every input under every tag pair
and always returns `new`. -/
def anyRule (new : String) : nameRule := { Sub := fun _ _ _ => new }

/-- A name-only pass over the rule list, as the spec words it: the first rule
whose name substitution of the original owner name is non-empty sets the owner
name, later rules cannot alter it; data is not touched. -/
def nameOnlyPass (rules : List nameRule) (ruleType : String) (rr : RR) : RR :=
  (rules.foldl
    (fun (st : RR × Bool) rule =>
      if !st.2 then
        (if rule.Sub rr.Hdr.Name ruleType namePart ≠ "" then
          ({ st.1 with Hdr := { st.1.Hdr with Name := rule.Sub rr.Hdr.Name ruleType namePart } },
            true)
        else st)
      else st)
    (rr, false)).1

/-- A data-only pass: the data-rewrite step run for every rule of the list, in
order. -/
def dataOnlyPass (rules : List nameRule) (ruleType : String) (rr : RR) : RR :=
  rules.foldl (fun cur rule => rewriteDataParts cur rule ruleType) rr

/-- The method `ResponseRewriter.WriteMsg` together with the state it leaves
behind also when it panics: the message as it stands, the underlying handle,
and the result. The statements run in source order, so a panic at
`res.Question[0] = ...` leaves message and handle as they were. -/
def ResponseRewriter.WriteMsgState (r : ResponseRewriter) (res : Msg) :
    Msg × Rewriteng.ResponseWriter × Except Panic (Option Error) :=
  match res.Question with
  | [] => (res, r.ResponseWriter, Except.error Panic.indexOutOfRange)
  | _ :: qs =>
    let res1 := { res with Question := r.originalQuestion :: qs }
    let res2 := rewriteAnswers r res1
    let res3 := rewriteAuthority r res2
    let res4 := rewriteAdditional r res3
    let w := r.ResponseWriter.WriteMsg res4
    (res4, w.1, Except.ok w.2)

/-- The names and strings of a payload that the rewriter can replace, in a fixed
order: CNAME and SRV target, NS name, SOA Ns and Mbox, the TXT strings. -/
def dataTextFields : RData → List String
  | RData.CNAME Target => [Target]
  | RData.TXT Txt => Txt
  | RData.NS Ns => [Ns]
  | RData.SOA Ns Mbox _ _ _ _ _ => [Ns, Mbox]
  | RData.SRV _ _ _ Target => [Target]
  | _ => []

/-- The text fields of a record that the rewriter can replace: the owner name,
then the names and strings of the data. -/
def textFields (rr : RR) : List String :=
  rr.Hdr.Name :: dataTextFields rr.Data

/-- The relation "a field that is non-empty before is non-empty after", field by
field, between the text fields of two records. -/
def NotBlanked (before after : RR) : Prop :=
  List.Forall₂ (fun x y : String => x ≠ "" → y ≠ "") (textFields before) (textFields after)

/-- What is left of a payload when the fields the rewriter may replace are
blanked: the concrete type, the number of TXT strings, the numeric fields of
SOA and SRV, and the whole payload of any other type. -/
def dataFrame : RData → RData
  | RData.CNAME _ => RData.CNAME ""
  | RData.TXT Txt => RData.TXT (Txt.map (fun _ => ""))
  | RData.A _ => RData.A []
  | RData.AAAA _ => RData.AAAA []
  | RData.NS _ => RData.NS ""
  | RData.SOA _ _ Serial Refresh Retry Expire Minttl =>
    RData.SOA "" "" Serial Refresh Retry Expire Minttl
  | RData.SRV Priority Weight Port _ => RData.SRV Priority Weight Port ""
  | d => d

/-- What is left of a record when the fields the rewriter may replace are
blanked: the header apart from the owner name, and the frame of the payload. -/
def recordFrame (rr : RR) : RR :=
  { Hdr := { rr.Hdr with Name := "" }, Data := dataFrame rr.Data }

/-- The TXT loop of `rewriteDataParts` instrumented to report what it reads:
the same iterations and stores as `rewriteTxtLoop`, returning the values of
`txtr` in iteration order. -/
def rewriteTxtReads (rule : nameRule) (ruleType : String) :
    Nat → Nat → List String → Nat → List String
  | 0, _, _, _ => []
  | n + 1, i, arr, tmpLen =>
    let txtr := arr.getD i ""
    let s := rule.Sub txtr ruleType dataPart
    if s ≠ "" then txtr :: rewriteTxtReads rule ruleType n (i + 1) (arr.set tmpLen s) (tmpLen + 1)
    else txtr :: rewriteTxtReads rule ruleType n (i + 1) (arr.set tmpLen txtr) (tmpLen + 1)

/-! ## The section passes on shared record objects

The entries of a section are pointers (`dns.RR` values holding `*dns.CNAME`,
`*dns.A`, ...), and the passes write through them. The definitions below keep
the record objects in a heap and the sections as lists of addresses, so that an
object listed more than once, or in more than one section, is rewritten once
per listing, as in the source. -/

/-- The record objects of a message, by address. -/
abbrev Heap := Nat → RR

/-- The heap after the object at address `p` has been overwritten with `v`. -/
def Heap.set (h : Heap) (p : Nat) (v : RR) : Heap :=
  fun q => if q = p then v else h q

/-- A `dns.Msg` whose sections list the addresses of their record objects. -/
structure MsgRef where
  MsgHdr : MsgHdr
  Compress : Bool
  Question : List Question
  Answer : List Nat
  Ns : List Nat
  Extra : List Nat

/-- The message as it reads through the heap. -/
def MsgRef.deref (res : MsgRef) (h : Heap) : Msg :=
  { MsgHdr := res.MsgHdr, Compress := res.Compress, Question := res.Question,
    Answer := res.Answer.map h, Ns := res.Ns.map h, Extra := res.Extra.map h }

/-- The record loop shared by `rewriteAnswers`, `rewriteAuthority` and
`rewriteAdditional` (`for _, rr := range ...`): for each listed address in
order, the rule loop runs on the object as it stands, reading its current
owner name and starting with `nameWriten = false`, and writes the result back
to the object. -/
def Ptr.rewriteSection (rules : List nameRule) (ruleType : String) : List Nat → Heap → Heap
  | [], h => h
  | p :: ps, h =>
    Ptr.rewriteSection rules ruleType ps (Heap.set h p (rewriteRecord rules ruleType (h p)))

/-- The method `rewriteAnswers`, on record objects. -/
def Ptr.rewriteAnswers (r : ResponseRewriter) (res : MsgRef) (h : Heap) : Heap :=
  Ptr.rewriteSection r.Rules answerRule res.Answer h

/-- The method `rewriteAuthority`, on record objects. -/
def Ptr.rewriteAuthority (r : ResponseRewriter) (res : MsgRef) (h : Heap) : Heap :=
  Ptr.rewriteSection r.Rules authorityRule res.Ns h

/-- The method `rewriteAdditional`, on record objects. -/
def Ptr.rewriteAdditional (r : ResponseRewriter) (res : MsgRef) (h : Heap) : Heap :=
  Ptr.rewriteSection r.Rules additionalRule res.Extra h

/-- What a call of `ResponseRewriter.WriteMsg` leaves behind, on record objects:
the message, the heap, the rewriter and the returned error. -/
structure OutcomeRef where
  msg : MsgRef
  heap : Heap
  rewriter : ResponseRewriter
  err : Option Error

/-- The method `ResponseRewriter.WriteMsg`, on record objects: the question is
overwritten, the three passes run in order on the same heap, and the handle is
given the message as it then reads. -/
def Ptr.WriteMsg (r : ResponseRewriter) (res : MsgRef) (h : Heap) : Except Panic OutcomeRef :=
  match res.Question with
  | [] => Except.error Panic.indexOutOfRange
  | _ :: qs =>
    let res1 : MsgRef := { res with Question := r.originalQuestion :: qs }
    let h2 := Ptr.rewriteAnswers r res1 h
    let h3 := Ptr.rewriteAuthority r res1 h2
    let h4 := Ptr.rewriteAdditional r res1 h3
    let w := r.ResponseWriter.WriteMsg (MsgRef.deref res1 h4)
    Except.ok { msg := res1, heap := h4, rewriter := { r with ResponseWriter := w.1 }, err := w.2 }

/-- Scenario data: every address holds the CNAME record x.internal. ->
a.example. -/
def sharedHeap : Heap :=
  fun _ => ⟨⟨"x.internal.", 5, 1, 300, 0⟩, RData.CNAME "a.example."⟩

/-- Scenario data: a response whose Answer section lists the record object at
address 0 twice. -/
def twiceListed : MsgRef :=
  { MsgHdr := ⟨7, true, 0, false, false, true, true, false, false, false, 0⟩,
    Compress := false,
    Question := [⟨"x.internal.", 5, 1⟩],
    Answer := [0, 0], Ns := [], Extra := [] }

/-- Scenario data: a response whose Answer and Additional sections both list the
record object at address 0; the Authority section lists the object at 1. -/
def listedInTwoSections : MsgRef :=
  { MsgHdr := ⟨7, true, 0, false, false, true, true, false, false, false, 0⟩,
    Compress := false,
    Question := [⟨"x.internal.", 5, 1⟩],
    Answer := [0], Ns := [1], Extra := [0] }

/-- Scenario data: a response whose sections list three different record
objects. -/
def listedOnce : MsgRef :=
  { MsgHdr := ⟨7, true, 0, false, false, true, true, false, false, false, 0⟩,
    Compress := false,
    Question := [⟨"x.internal.", 5, 1⟩],
    Answer := [0], Ns := [1], Extra := [2] }

/-- The heap after the three passes of `WriteMsg`, in source order. -/
def Ptr.finalHeap (r : ResponseRewriter) (res : MsgRef) (h : Heap) : Heap :=
  Ptr.rewriteAdditional r res (Ptr.rewriteAuthority r res (Ptr.rewriteAnswers r res h))

/-- Scenario data: address 1 holds the NS record internal. -> target.internal.,
every other address the CNAME record bar.internal. -> target.internal. -/
def scopeHeap : Heap :=
  fun p =>
    if p = 1 then ⟨⟨"internal.", 2, 1, 300, 0⟩, RData.NS "target.internal."⟩
    else ⟨⟨"bar.internal.", 5, 1, 300, 0⟩, RData.CNAME "target.internal."⟩

/-! ## Lemmas on the embedding -/

theorem rewriteTxtLoop_append (rule : nameRule) (ruleType : String) :
    ∀ (rest pre : List String),
      rewriteTxtLoop rule ruleType rest.length pre.length (pre ++ rest) pre.length =
        (pre ++ rest.map (subOrKeep rule ruleType dataPart), pre.length + rest.length) := by
  intro rest
  induction rest with
  | nil => intro pre; simp [rewriteTxtLoop]
  | cons x xs ih =>
    intro pre
    have hget : (pre ++ x :: xs).getD pre.length "" = x := by
      have h : (pre ++ x :: xs)[pre.length]? = some x := by
        rw [List.getElem?_append_right (Nat.le_refl _)]
        simp
      simp [List.getD, h]
    have hset : ∀ v : String, (pre ++ x :: xs).set pre.length v = (pre ++ [v]) ++ xs := by
      intro v
      simp [List.set_append]
    have hstep : rewriteTxtLoop rule ruleType (x :: xs).length pre.length (pre ++ x :: xs)
          pre.length =
        rewriteTxtLoop rule ruleType xs.length (pre ++ [subOrKeep rule ruleType dataPart x]).length
          ((pre ++ [subOrKeep rule ruleType dataPart x]) ++ xs)
          (pre ++ [subOrKeep rule ruleType dataPart x]).length := by
      simp only [List.length_cons, rewriteTxtLoop, hget, hset, subOrKeep, List.length_append,
        List.length_nil, Nat.zero_add]
      split <;> rfl
    rw [hstep, ih]
    simp [Nat.add_assoc, Nat.add_comm 1]

theorem rewriteTxtLoop_map (rule : nameRule) (ruleType : String) (Txt : List String) :
    rewriteTxtLoop rule ruleType Txt.length 0 Txt 0 =
      (Txt.map (subOrKeep rule ruleType dataPart), Txt.length) := by
  have h := rewriteTxtLoop_append rule ruleType Txt []
  simpa using h

theorem rewriteData_TXT (rule : nameRule) (ruleType : String) (Txt : List String) :
    rewriteData (RData.TXT Txt) rule ruleType =
      RData.TXT (Txt.map (subOrKeep rule ruleType dataPart)) := by
  simp [rewriteData, rewriteDataParts, rewriteTxtLoop_map]

theorem rewriteData_CNAME (rule : nameRule) (ruleType : String) (t : String) :
    rewriteData (RData.CNAME t) rule ruleType =
      RData.CNAME (subOrKeep rule ruleType dataPart t) := by
  simp only [rewriteData, rewriteDataParts, subOrKeep]
  split <;> rfl

theorem rewriteDataParts_eq (rr : RR) (rule : nameRule) (ruleType : String) :
    rewriteDataParts rr rule ruleType =
      { Hdr := rr.Hdr, Data := rewriteData rr.Data rule ruleType } := by
  obtain ⟨hdr, d⟩ := rr
  cases d <;> simp only [rewriteData, rewriteDataParts] <;>
    repeat (first | rfl | split)

theorem foldl_nameStep_true (name ruleType : String) (rules : List nameRule) (cur : String) :
    rules.foldl (nameStep name ruleType) (cur, true) = (cur, true) := by
  induction rules with
  | nil => rfl
  | cons r rs ih => simpa [nameStep] using ih

theorem foldl_ruleStep (name ruleType : String) :
    ∀ (rules : List nameRule) (rr : RR) (b : Bool),
      rules.foldl (ruleStep name ruleType) (rr, b) =
        ({ Hdr := { rr.Hdr with
                    Name := (rules.foldl (nameStep name ruleType) (rr.Hdr.Name, b)).1 },
           Data := rules.foldl (fun d rule => rewriteData d rule ruleType) rr.Data },
         (rules.foldl (nameStep name ruleType) (rr.Hdr.Name, b)).2) := by
  intro rules
  induction rules with
  | nil => intro rr b; rfl
  | cons r rs ih =>
    intro rr b
    simp only [List.foldl_cons]
    have hstep : ruleStep name ruleType (rr, b) r =
        ({ Hdr := { rr.Hdr with Name := (nameStep name ruleType (rr.Hdr.Name, b) r).1 },
           Data := rewriteData rr.Data r ruleType },
         (nameStep name ruleType (rr.Hdr.Name, b) r).2) := by
      simp only [ruleStep, nameStep, rewriteDataParts_eq]
      cases b <;> simp
      split <;> simp
    rw [hstep, ih]

theorem foldl_nameStep_false (name ruleType : String) (rules : List nameRule) :
    (rules.foldl (nameStep name ruleType) (name, false)).1 =
      specFirstMatchName rules ruleType name := by
  induction rules with
  | nil => rfl
  | cons r rs ih =>
    by_cases h : r.Sub name ruleType namePart = ""
    · simpa [nameStep, specFirstMatchName, List.find?, h] using ih
    · simp [nameStep, specFirstMatchName, List.find?, h, foldl_nameStep_true]

theorem rewriteRecord_eq (rules : List nameRule) (ruleType : String) (rr : RR) :
    rewriteRecord rules ruleType rr =
      { Hdr := { rr.Hdr with Name := specFirstMatchName rules ruleType rr.Hdr.Name },
        Data := rules.foldl (fun d rule => rewriteData d rule ruleType) rr.Data } := by
  simp [rewriteRecord, foldl_ruleStep, foldl_nameStep_false]

theorem foldl_rewriteData_CNAME (ruleType : String) (rules : List nameRule) (t : String) :
    rules.foldl (fun d rule => rewriteData d rule ruleType) (RData.CNAME t) =
      RData.CNAME (specCumulative rules ruleType t) := by
  induction rules generalizing t with
  | nil => rfl
  | cons r rs ih =>
    simp only [List.foldl_cons, rewriteData_CNAME, ih]
    rfl

/-- C1: after construction from a query whose first question is `q0` and
finalization of a response that has a question, with any rule list, the
response's `Question[0]` is `q0`, whatever question the response carried; a
second finalization of the same message leaves `Question[0]` at `q0`. -/
theorem C1_question_restored (w : ResponseWriter) (q res : Msg) (rules : List nameRule)
    (q0 : Question) (hq : q.Question[0]? = some q0) (hres : res.Question ≠ []) :
    ∃ r out out2,
      NewResponseRewriter w q = Except.ok r ∧
      ResponseRewriter.WriteMsg { r with Rules := rules } res = Except.ok out ∧
      out.msg.Question[0]? = some q0 ∧
      ResponseRewriter.WriteMsg out.rewriter out.msg = Except.ok out2 ∧
      out2.msg.Question[0]? = some q0 := by
  obtain ⟨hdr, c, qs, an, ns, ex⟩ := q
  obtain ⟨hdr', c', qs', an', ns', ex'⟩ := res
  cases qs with
  | nil => simp at hq
  | cons a as =>
    cases qs' with
    | nil => exact absurd rfl hres
    | cons b bs =>
      simp at hq
      subst hq
      refine ⟨_, _, _, rfl, rfl, ?_, rfl, ?_⟩ <;>
        simp [rewriteAdditional, rewriteAuthority, rewriteAnswers]

theorem C1_question_restored_witness :
    ∃ r out out2,
      NewResponseRewriter ⟨[], fun _ => none⟩
          ⟨⟨1, false, 0, false, false, true, false, false, false, false, 0⟩, false,
            [⟨"foo.example.", 5, 1⟩], [], [], []⟩ = Except.ok r ∧
      ResponseRewriter.WriteMsg { r with Rules := [suffixRule answerRule "internal." "example."] }
          ⟨⟨1, true, 0, false, false, true, true, false, false, false, 0⟩, false,
            [⟨"bar.internal.", 5, 1⟩],
            [⟨⟨"bar.internal.", 5, 1, 300, 0⟩, RData.CNAME "target.internal."⟩], [], []⟩
        = Except.ok out ∧
      out.msg.Question[0]? = some ⟨"foo.example.", 5, 1⟩ ∧
      ResponseRewriter.WriteMsg out.rewriter out.msg = Except.ok out2 ∧
      out2.msg.Question[0]? = some ⟨"foo.example.", 5, 1⟩ :=
  C1_question_restored _ _ _ _ _ rfl (by simp)

/-- C3: the target of a CNAME record after the rule loop is the left fold over
the rule list of "the rule's data substitution of the current target when that
is non-empty, the current target otherwise"; with a first rule mapping
a.example. to b.example. and a second mapping b.example. to c.example., an
Answer CNAME with target a.example. ends with target c.example. -/
theorem C3_cname_cumulative :
    (∀ (rules : List nameRule) (ruleType : String) (hdr : RR_Header) (t : String),
      (rewriteRecord rules ruleType ⟨hdr, RData.CNAME t⟩).Data =
        RData.CNAME (specCumulative rules ruleType t)) ∧
    (∀ (w : ResponseWriter) (q0 : Question) (res : Msg) (hdr : RR_Header),
      (rewriteAnswers
          ⟨w, q0, [exactRule answerRule dataPart "a.example." "b.example.",
                   exactRule answerRule dataPart "b.example." "c.example."]⟩
          { res with Answer := [⟨hdr, RData.CNAME "a.example."⟩] }).Answer =
        [⟨hdr, RData.CNAME "c.example."⟩]) := by
  refine ⟨?_, ?_⟩
  · intro rules ruleType hdr t
    simp [rewriteRecord_eq, foldl_rewriteData_CNAME]
  · intro w q0 res hdr
    simp only [rewriteAnswers, List.map_cons, List.map_nil, rewriteRecord_eq,
      foldl_rewriteData_CNAME]
    simp [specCumulative, specFirstMatchName, exactRule, answerRule, dataPart, namePart]

theorem foldl_rewriteData_TXT (ruleType : String) (rules : List nameRule) (txt : List String) :
    rules.foldl (fun d rule => rewriteData d rule ruleType) (RData.TXT txt) =
      RData.TXT (txt.map (specCumulative rules ruleType)) := by
  induction rules generalizing txt with
  | nil =>
    have h : specCumulative [] ruleType = id := rfl
    simp [h]
  | cons r rs ih =>
    simp only [List.foldl_cons, rewriteData_TXT, ih, List.map_map]
    rfl

/-- C4: an A record keeps its address when the rule's replacement does not
parse as an IP address or contains no `.`; an AAAA record keeps its address
when the replacement does not parse or contains no `:`; an A record 10.0.0.5
offered the replacement "::1" stays 10.0.0.5. -/
theorem C4_address_guard :
    (∀ (rule : nameRule) (ruleType : String) (hdr : RR_Header) (ip : IP),
      (ParseIP (rule.Sub (IP.String ip) ruleType dataPart) = none ∨
        stringsContains (rule.Sub (IP.String ip) ruleType dataPart) '.' = false) →
      rewriteDataParts ⟨hdr, RData.A ip⟩ rule ruleType = ⟨hdr, RData.A ip⟩) ∧
    (∀ (rule : nameRule) (ruleType : String) (hdr : RR_Header) (ip : IP),
      (ParseIP (rule.Sub (IP.String ip) ruleType dataPart) = none ∨
        stringsContains (rule.Sub (IP.String ip) ruleType dataPart) ':' = false) →
      rewriteDataParts ⟨hdr, RData.AAAA ip⟩ rule ruleType = ⟨hdr, RData.AAAA ip⟩) ∧
    (∀ (hdr : RR_Header),
      rewriteDataParts ⟨hdr, RData.A [10, 0, 0, 5]⟩ (constRule answerRule dataPart "::1")
        answerRule = ⟨hdr, RData.A [10, 0, 0, 5]⟩) := by
  have hA : ∀ (rule : nameRule) (ruleType : String) (hdr : RR_Header) (ip : IP),
      (ParseIP (rule.Sub (IP.String ip) ruleType dataPart) = none ∨
        stringsContains (rule.Sub (IP.String ip) ruleType dataPart) '.' = false) →
      rewriteDataParts ⟨hdr, RData.A ip⟩ rule ruleType = ⟨hdr, RData.A ip⟩ := by
    intro rule ruleType hdr ip h
    simp only [rewriteDataParts]
    split
    · rcases h with h | h
      · simp [h]
      · cases hp : ParseIP (rule.Sub (IP.String ip) ruleType dataPart) <;> simp [h]
    · rfl
  refine ⟨hA, ?_, ?_⟩
  · intro rule ruleType hdr ip h
    simp only [rewriteDataParts]
    split
    · rcases h with h | h
      · simp [h]
      · cases hp : ParseIP (rule.Sub (IP.String ip) ruleType dataPart) <;> simp [h]
    · rfl
  · intro hdr
    apply hA
    right
    simp [constRule, stringsContains]

/-- An AAAA record ::1 offered the IPv4 literal 10.0.0.5, and an A record
offered a string that is no address, keep their addresses. -/
theorem C4_address_guard_witness :
    rewriteDataParts ⟨⟨"h.example.", 28, 1, 60, 0⟩,
        RData.AAAA [0, 0, 0, 0, 0, 0, 0, 0, 0, 0, 0, 0, 0, 0, 0, 1]⟩
      (constRule answerRule dataPart "10.0.0.5") answerRule =
      ⟨⟨"h.example.", 28, 1, 60, 0⟩,
        RData.AAAA [0, 0, 0, 0, 0, 0, 0, 0, 0, 0, 0, 0, 0, 0, 0, 1]⟩ ∧
    rewriteDataParts ⟨⟨"h.example.", 1, 1, 60, 0⟩, RData.A [10, 0, 0, 5]⟩
      (constRule answerRule dataPart "10.0.0.256") answerRule =
      ⟨⟨"h.example.", 1, 1, 60, 0⟩, RData.A [10, 0, 0, 5]⟩ :=
  ⟨C4_address_guard.2.1 _ _ _ _ (Or.inr (by decide)),
   C4_address_guard.1 _ _ _ _ (Or.inl (by decide))⟩

/-- C5: an A record holding the IPv4 address 10.0.0.5 and offered the replacement
"::1.2.3.4" (a valid address text that contains a `.`) ends up holding the
16-byte address ::102:304, which is not an IPv4 address (`To4` is nil); an AAAA
record holding ::1 and offered "::ffff:1.2.3.4" ends up holding an IPv4-mapped
address, which `To4` and `String` treat as the IPv4 address 1.2.3.4. So it is
not true that an A record holding an IPv4 address always holds one afterwards. -/
theorem C5_family_guard_misses_mixed_notation :
    (To4 [10, 0, 0, 5]).isSome = true ∧
    rewriteDataParts ⟨⟨"h.example.", 1, 1, 60, 0⟩, RData.A [10, 0, 0, 5]⟩
        (constRule answerRule dataPart "::1.2.3.4") answerRule =
      ⟨⟨"h.example.", 1, 1, 60, 0⟩,
        RData.A [0, 0, 0, 0, 0, 0, 0, 0, 0, 0, 0, 0, 1, 2, 3, 4]⟩ ∧
    To4 [0, 0, 0, 0, 0, 0, 0, 0, 0, 0, 0, 0, 1, 2, 3, 4] = none ∧
    IP.String [0, 0, 0, 0, 0, 0, 0, 0, 0, 0, 0, 0, 1, 2, 3, 4] = "::102:304" ∧
    To4 [0, 0, 0, 0, 0, 0, 0, 0, 0, 0, 0, 0, 0, 0, 0, 1] = none ∧
    rewriteDataParts ⟨⟨"h.example.", 28, 1, 60, 0⟩,
        RData.AAAA [0, 0, 0, 0, 0, 0, 0, 0, 0, 0, 0, 0, 0, 0, 0, 1]⟩
        (constRule answerRule dataPart "::ffff:1.2.3.4") answerRule =
      ⟨⟨"h.example.", 28, 1, 60, 0⟩,
        RData.AAAA [0, 0, 0, 0, 0, 0, 0, 0, 0, 0, 255, 255, 1, 2, 3, 4]⟩ ∧
    To4 [0, 0, 0, 0, 0, 0, 0, 0, 0, 0, 255, 255, 1, 2, 3, 4] = some [1, 2, 3, 4] ∧
    IP.String [0, 0, 0, 0, 0, 0, 0, 0, 0, 0, 255, 255, 1, 2, 3, 4] = "1.2.3.4" ∧
    ¬ (∀ (rule : nameRule) (ruleType : String) (hdr : RR_Header) (ip ip1 : IP),
        (To4 ip).isSome = true →
        rewriteDataParts ⟨hdr, RData.A ip⟩ rule ruleType = ⟨hdr, RData.A ip1⟩ →
        (To4 ip1).isSome = true) := by
  refine ⟨by decide, by decide, by decide, by decide, by decide, by decide, by decide,
    by decide, ?_⟩
  intro h
  have h1 := h (constRule answerRule dataPart "::1.2.3.4") answerRule
    ⟨"h.example.", 1, 1, 60, 0⟩ [10, 0, 0, 5] [0, 0, 0, 0, 0, 0, 0, 0, 0, 0, 0, 0, 1, 2, 3, 4]
    (by decide) (by decide)
  revert h1
  decide

/-- C6: the text list of a TXT record after the rule loop is the input list with
each string rewritten on its own (so it has the same length and order); for a
single rule, `rewriteDataParts` maps each string to the rule's data substitution
when that is non-empty and to itself otherwise. -/
theorem C6_txt_elementwise :
    (∀ (rules : List nameRule) (ruleType : String) (hdr : RR_Header) (txt : List String),
      ∃ out, (rewriteRecord rules ruleType ⟨hdr, RData.TXT txt⟩).Data = RData.TXT out ∧
        out.length = txt.length ∧
        out = txt.map (specCumulative rules ruleType)) ∧
    (∀ (rule : nameRule) (ruleType : String) (hdr : RR_Header) (txt : List String),
      rewriteDataParts ⟨hdr, RData.TXT txt⟩ rule ruleType =
        ⟨hdr, RData.TXT (txt.map (fun x =>
          if rule.Sub x ruleType dataPart ≠ "" then rule.Sub x ruleType dataPart else x))⟩) := by
  refine ⟨?_, ?_⟩
  · intro rules ruleType hdr txt
    refine ⟨txt.map (specCumulative rules ruleType), ?_, by simp, rfl⟩
    simp [rewriteRecord_eq, foldl_rewriteData_TXT]
  · intro rule ruleType hdr txt
    rw [rewriteDataParts_eq, rewriteData_TXT]
    rfl

theorem subOrKeep_of_no_match (rule : nameRule) (ruleType part : String)
    (h : ∀ x, rule.Sub x ruleType part = "") (x : String) :
    subOrKeep rule ruleType part x = x := by
  simp [subOrKeep, h]

theorem rewriteData_of_no_match (rule : nameRule) (ruleType : String)
    (h : ∀ x, rule.Sub x ruleType dataPart = "") (d : RData) :
    rewriteData d rule ruleType = d := by
  cases d with
  | TXT txt =>
    rw [rewriteData_TXT]
    have hid : subOrKeep rule ruleType dataPart = id := by
      funext x
      exact subOrKeep_of_no_match rule ruleType dataPart h x
    simp [hid]
  | _ => simp [rewriteData, rewriteDataParts, h]

theorem foldl_rewriteData_of_no_match (rules : List nameRule) (ruleType : String)
    (h : ∀ rule ∈ rules, ∀ x, rule.Sub x ruleType dataPart = "") (d : RData) :
    rules.foldl (fun d rule => rewriteData d rule ruleType) d = d := by
  induction rules with
  | nil => rfl
  | cons r rs ih =>
    simp only [List.foldl_cons]
    rw [rewriteData_of_no_match r ruleType (h r (List.mem_cons_self _ _))]
    exact ih (fun rule hr => h rule (List.mem_cons_of_mem _ hr))

theorem specFirstMatchName_of_no_match (rules : List nameRule) (ruleType name : String)
    (h : ∀ rule ∈ rules, ∀ x, rule.Sub x ruleType namePart = "") :
    specFirstMatchName rules ruleType name = name := by
  induction rules with
  | nil => rfl
  | cons r rs ih =>
    have hr := h r (List.mem_cons_self _ _) name
    have ih' := ih (fun rule hm => h rule (List.mem_cons_of_mem _ hm))
    simpa [specFirstMatchName, List.find?, hr] using ih'

theorem rewriteRecord_data_of_no_match (rules : List nameRule) (ruleType : String)
    (h : ∀ rule ∈ rules, ∀ x, rule.Sub x ruleType dataPart = "") (rr : RR) :
    (rewriteRecord rules ruleType rr).Data = rr.Data := by
  simp [rewriteRecord_eq, foldl_rewriteData_of_no_match rules ruleType h]

theorem rewriteRecord_name_of_no_match (rules : List nameRule) (ruleType : String)
    (h : ∀ rule ∈ rules, ∀ x, rule.Sub x ruleType namePart = "") (rr : RR) :
    (rewriteRecord rules ruleType rr).Hdr.Name = rr.Hdr.Name := by
  simp [rewriteRecord_eq, specFirstMatchName_of_no_match rules ruleType _ h]

theorem rewriteRecord_of_no_match (rules : List nameRule) (ruleType : String)
    (hn : ∀ rule ∈ rules, ∀ x, rule.Sub x ruleType namePart = "")
    (hd : ∀ rule ∈ rules, ∀ x, rule.Sub x ruleType dataPart = "") (rr : RR) :
    rewriteRecord rules ruleType rr = rr := by
  rw [rewriteRecord_eq, foldl_rewriteData_of_no_match rules ruleType hd,
    specFirstMatchName_of_no_match rules ruleType _ hn]

theorem map_rewriteRecord_of_no_match (rules : List nameRule) (ruleType : String)
    (hn : ∀ rule ∈ rules, ∀ x, rule.Sub x ruleType namePart = "")
    (hd : ∀ rule ∈ rules, ∀ x, rule.Sub x ruleType dataPart = "") (l : List RR) :
    l.map (rewriteRecord rules ruleType) = l := by
  have h : rewriteRecord rules ruleType = id := by
    funext rr
    exact rewriteRecord_of_no_match rules ruleType hn hd rr
  simp [h]

theorem WriteMsg_eq (r : ResponseRewriter) (res : Msg) (hres : res.Question ≠ []) :
    ResponseRewriter.WriteMsg r res =
      Except.ok
        { msg := finalized r res,
          rewriter :=
            { r with
              ResponseWriter :=
                { r.ResponseWriter with sent := r.ResponseWriter.sent ++ [finalized r res] } },
          err := r.ResponseWriter.result (finalized r res) } := by
  obtain ⟨hdr, c, qs, an, ns, ex⟩ := res
  cases qs with
  | nil => exact absurd rfl hres
  | cons b bs => rfl

/-- C7: when no rule of the list ever matches (every `Sub` call returns the
empty string), and in particular with the empty rule list of a freshly
constructed rewriter, finalization of a response that has a question leaves
the Answer, Authority and Additional records identical to the input and sets
`Question[0]` to the question captured at construction. -/
theorem C7_no_match_is_identity (w : ResponseWriter) (q res : Msg) (rules : List nameRule)
    (q0 : Question) (hq : q.Question[0]? = some q0) (hres : res.Question ≠ [])
    (hno : ∀ rule ∈ rules, ∀ (x s p : String), rule.Sub x s p = "") :
    ∃ r out fresh,
      NewResponseRewriter w q = Except.ok r ∧
      ResponseRewriter.WriteMsg { r with Rules := rules } res = Except.ok out ∧
      out.msg.Answer = res.Answer ∧ out.msg.Ns = res.Ns ∧ out.msg.Extra = res.Extra ∧
      out.msg.Question[0]? = some q0 ∧
      r.Rules = [] ∧
      ResponseRewriter.WriteMsg r res = Except.ok fresh ∧
      fresh.msg.Answer = res.Answer ∧ fresh.msg.Ns = res.Ns ∧ fresh.msg.Extra = res.Extra ∧
      fresh.msg.Question[0]? = some q0 := by
  obtain ⟨hdr, c, qs, an, ns, ex⟩ := q
  cases qs with
  | nil => simp at hq
  | cons a as =>
    simp at hq
    subst hq
    refine ⟨_, _, _, rfl, WriteMsg_eq _ res hres, ?_, ?_, ?_, ?_, rfl,
      WriteMsg_eq _ res hres, ?_, ?_, ?_, ?_⟩
    · exact map_rewriteRecord_of_no_match rules _ (fun r hr x => hno r hr _ _ _)
        (fun r hr x => hno r hr _ _ _) _
    · exact map_rewriteRecord_of_no_match rules _ (fun r hr x => hno r hr _ _ _)
        (fun r hr x => hno r hr _ _ _) _
    · exact map_rewriteRecord_of_no_match rules _ (fun r hr x => hno r hr _ _ _)
        (fun r hr x => hno r hr _ _ _) _
    · simp [finalized]
    · exact map_rewriteRecord_of_no_match [] _ (by simp) (by simp) _
    · exact map_rewriteRecord_of_no_match [] _ (by simp) (by simp) _
    · exact map_rewriteRecord_of_no_match [] _ (by simp) (by simp) _
    · simp [finalized]

theorem C7_no_match_is_identity_witness :
    ∃ r out fresh,
      NewResponseRewriter scenarioWriter scenarioQuery = Except.ok r ∧
      ResponseRewriter.WriteMsg { r with Rules := [neverRule, neverRule] } scenarioResponse =
        Except.ok out ∧
      out.msg.Answer = scenarioResponse.Answer ∧ out.msg.Ns = scenarioResponse.Ns ∧
      out.msg.Extra = scenarioResponse.Extra ∧
      out.msg.Question[0]? = some ⟨"foo.example.", 5, 1⟩ ∧
      r.Rules = [] ∧
      ResponseRewriter.WriteMsg r scenarioResponse = Except.ok fresh ∧
      fresh.msg.Answer = scenarioResponse.Answer ∧ fresh.msg.Ns = scenarioResponse.Ns ∧
      fresh.msg.Extra = scenarioResponse.Extra ∧
      fresh.msg.Question[0]? = some ⟨"foo.example.", 5, 1⟩ :=
  C7_no_match_is_identity scenarioWriter scenarioQuery scenarioResponse [neverRule, neverRule]
    ⟨"foo.example.", 5, 1⟩ rfl (by simp [scenarioResponse]) (by simp [neverRule])

/-- C8 (as stated, refuted): in the scenario, with the rule mapping the suffix
internal. to example. in the answer section, it is not the case that
finalization yields question foo.example., Answer owner name foo.example. and
target target.example.: the owner name becomes bar.example. -/
theorem C8_scenario_counterexample :
    ¬ (∃ r out,
        NewResponseRewriter scenarioWriter scenarioQuery = Except.ok r ∧
        ResponseRewriter.WriteMsg
            { r with Rules := [suffixRule answerRule "internal." "example."] }
            scenarioResponse = Except.ok out ∧
        out.msg.Question.map (fun q => q.Name) = ["foo.example."] ∧
        out.msg.Answer.map (fun rr => rr.Hdr.Name) = ["foo.example."] ∧
        out.msg.Answer.map (fun rr => rr.Data) = [RData.CNAME "target.example."]) := by
  rintro ⟨r, out, hr, hout, -, hname, -⟩
  have hr' : r = { ResponseWriter := scenarioWriter, originalQuestion := ⟨"foo.example.", 5, 1⟩,
                   Rules := [] } := by
    have h : NewResponseRewriter scenarioWriter scenarioQuery =
        Except.ok { ResponseWriter := scenarioWriter,
                    originalQuestion := ⟨"foo.example.", 5, 1⟩, Rules := [] } := rfl
    rw [h] at hr
    exact (Except.ok.inj hr).symm
  subst hr'
  rw [WriteMsg_eq _ _ (by simp [scenarioResponse])] at hout
  have hmsg := congrArg Outcome.msg (Except.ok.inj hout)
  rw [← hmsg] at hname
  simp only [finalized, scenarioResponse, List.map_cons, List.map_nil, rewriteRecord_eq] at hname
  revert hname
  decide

/-- C8 (amended): in the scenario, for a rule whose answer-section name
substitution of bar.internal. is bar.example. and whose answer-section data
substitution of target.internal. is target.example., finalization yields the
question foo.example. and the Answer CNAME record bar.example. ->
target.example. -/
theorem C8_scenario_amended (w : ResponseWriter) (rule : nameRule)
    (hname : rule.Sub "bar.internal." answerRule namePart = "bar.example.")
    (hdata : rule.Sub "target.internal." answerRule dataPart = "target.example.") :
    ∃ r out,
      NewResponseRewriter w scenarioQuery = Except.ok r ∧
      ResponseRewriter.WriteMsg { r with Rules := [rule] } scenarioResponse = Except.ok out ∧
      out.msg.Question = [⟨"foo.example.", 5, 1⟩] ∧
      out.msg.Answer = [⟨⟨"bar.example.", 5, 1, 300, 0⟩, RData.CNAME "target.example."⟩] ∧
      out.msg.Ns = [] ∧ out.msg.Extra = [] := by
  refine ⟨_, _, rfl, WriteMsg_eq _ _ (by simp [scenarioResponse]), ?_, ?_, ?_, ?_⟩
  · simp [finalized, scenarioResponse]
  · simp [finalized, scenarioResponse, rewriteRecord_eq, specFirstMatchName, List.find?,
      hname, rewriteData_CNAME, subOrKeep, hdata]
  · simp [finalized, scenarioResponse]
  · simp [finalized, scenarioResponse]

theorem C8_scenario_amended_witness :
    ∃ r out,
      NewResponseRewriter scenarioWriter scenarioQuery = Except.ok r ∧
      ResponseRewriter.WriteMsg
          { r with Rules := [suffixRule answerRule "internal." "example."] }
          scenarioResponse = Except.ok out ∧
      out.msg.Question = [⟨"foo.example.", 5, 1⟩] ∧
      out.msg.Answer = [⟨⟨"bar.example.", 5, 1, 300, 0⟩, RData.CNAME "target.example."⟩] ∧
      out.msg.Ns = [] ∧ out.msg.Extra = [] :=
  C8_scenario_amended scenarioWriter (suffixRule answerRule "internal." "example.")
    (by decide) (by decide)

/-- C9: for a response that has a question, `WriteMsg` returns exactly what the
underlying handle's `WriteMsg` returns for the message it is given, the handle
is called once (its state afterwards is the state after that one call, one
more message sent), the message given to it has `Question[0]` restored and all
three sections rewritten, and the message left behind is that same rewritten
message whatever the handle returns. -/
theorem C9_error_propagation (r : ResponseRewriter) (res : Msg) (hres : res.Question ≠ []) :
    ∃ out,
      ResponseRewriter.WriteMsg r res = Except.ok out ∧
      out.err = (r.ResponseWriter.WriteMsg out.msg).2 ∧
      out.rewriter.ResponseWriter = (r.ResponseWriter.WriteMsg out.msg).1 ∧
      out.rewriter.ResponseWriter.sent = r.ResponseWriter.sent ++ [out.msg] ∧
      out.msg.Question[0]? = some r.originalQuestion ∧
      out.msg.Answer = res.Answer.map (rewriteRecord r.Rules answerRule) ∧
      out.msg.Ns = res.Ns.map (rewriteRecord r.Rules authorityRule) ∧
      out.msg.Extra = res.Extra.map (rewriteRecord r.Rules additionalRule) ∧
      (∀ w : ResponseWriter, ∃ out1,
        ResponseRewriter.WriteMsg { r with ResponseWriter := w } res = Except.ok out1 ∧
        out1.msg = out.msg ∧ out1.err = w.result out.msg) := by
  refine ⟨_, WriteMsg_eq r res hres, rfl, rfl, rfl, ?_, rfl, rfl, rfl, ?_⟩
  · simp [finalized]
  · intro w
    exact ⟨_, WriteMsg_eq _ res hres, rfl, rfl⟩

/-- A handle that fails on every message: the error comes back unchanged, one
message was handed over, and it is the rewritten one. -/
theorem C9_error_propagation_witness :
    ∃ out,
      ResponseRewriter.WriteMsg
        { ResponseWriter := { sent := [], result := fun _ => some "write: broken pipe" },
          originalQuestion := ⟨"foo.example.", 5, 1⟩,
          Rules := [suffixRule answerRule "internal." "example."] } scenarioResponse
        = Except.ok out ∧
      out.err = some "write: broken pipe" ∧
      out.rewriter.ResponseWriter.sent = [out.msg] ∧
      out.msg.Question[0]? = some ⟨"foo.example.", 5, 1⟩ ∧
      out.msg.Answer = [⟨⟨"bar.example.", 5, 1, 300, 0⟩, RData.CNAME "target.example."⟩] := by
  obtain ⟨out, h1, h2, -, h4, h5, h6, -, -, -⟩ :=
    C9_error_propagation
      { ResponseWriter := { sent := [], result := fun _ => some "write: broken pipe" },
        originalQuestion := ⟨"foo.example.", 5, 1⟩,
        Rules := [suffixRule answerRule "internal." "example."] } scenarioResponse
      (by simp [scenarioResponse])
  refine ⟨out, h1, h2, by simpa using h4, h5, ?_⟩
  rw [h6]
  decide

theorem specFirstMatchName_restrict (rules : List nameRule) (ruleType name : String) :
    specFirstMatchName (rules.map (restrictRule ruleType namePart)) ruleType name =
      specFirstMatchName rules ruleType name := by
  induction rules with
  | nil => rfl
  | cons r rs ih =>
    by_cases h : r.Sub name ruleType namePart = ""
    · simpa [specFirstMatchName, List.find?, restrictRule, h] using ih
    · simp [specFirstMatchName, List.find?, restrictRule, h]

theorem rewriteData_restrict (rule : nameRule) (ruleType : String) (d : RData) :
    rewriteData d (restrictRule ruleType dataPart rule) ruleType = rewriteData d rule ruleType := by
  cases d with
  | TXT txt =>
    rw [rewriteData_TXT, rewriteData_TXT]
    have h : subOrKeep (restrictRule ruleType dataPart rule) ruleType dataPart =
        subOrKeep rule ruleType dataPart := by
      funext x
      simp [subOrKeep, restrictRule]
    rw [h]
  | _ => simp [rewriteData, rewriteDataParts, restrictRule]

theorem foldl_rewriteData_restrict (rules : List nameRule) (ruleType : String) (d : RData) :
    (rules.map (restrictRule ruleType dataPart)).foldl
        (fun d rule => rewriteData d rule ruleType) d =
      rules.foldl (fun d rule => rewriteData d rule ruleType) d := by
  induction rules generalizing d with
  | nil => rfl
  | cons r rs ih => simp only [List.map_cons, List.foldl_cons, rewriteData_restrict, ih]

theorem rewriteRecord_name_restrict (rules : List nameRule) (ruleType : String) (rr : RR) :
    (rewriteRecord (rules.map (restrictRule ruleType namePart)) ruleType rr).Hdr.Name =
      (rewriteRecord rules ruleType rr).Hdr.Name := by
  simp [rewriteRecord_eq, specFirstMatchName_restrict]

theorem rewriteRecord_data_restrict (rules : List nameRule) (ruleType : String) (rr : RR) :
    (rewriteRecord (rules.map (restrictRule ruleType dataPart)) ruleType rr).Data =
      (rewriteRecord rules ruleType rr).Data := by
  simp [rewriteRecord_eq, foldl_rewriteData_restrict]

theorem exactRule_scoped (sec part old new : String) (x s p : String)
    (h : s ≠ sec ∨ p ≠ part) : (exactRule sec part old new).Sub x s p = "" := by
  simp only [exactRule]
  split
  · rename_i hc
    rcases h with h | h
    · exact absurd hc.1 h
    · exact absurd hc.2.1 h
  · rfl

/-- C11: for an SOA record and a rule, the data-rewrite step sets Ns to the
rule's data substitution of the old Ns when that is non-empty and keeps it
otherwise, sets Mbox to the substitution of the old Mbox when that is non-empty
and keeps it otherwise (whatever happened to Ns), and leaves serial, refresh,
retry, expire and minimum as they were. -/
theorem C11_soa_fields_independent (rule : nameRule) (ruleType : String) (hdr : RR_Header)
    (Ns Mbox : String) (Serial Refresh Retry Expire Minttl : Nat) :
    rewriteDataParts ⟨hdr, RData.SOA Ns Mbox Serial Refresh Retry Expire Minttl⟩ rule ruleType =
      ⟨hdr, RData.SOA
        (if rule.Sub Ns ruleType dataPart ≠ "" then rule.Sub Ns ruleType dataPart else Ns)
        (if rule.Sub Mbox ruleType dataPart ≠ "" then rule.Sub Mbox ruleType dataPart else Mbox)
        Serial Refresh Retry Expire Minttl⟩ := by
  simp only [rewriteDataParts]

/-- C12: for a record whose concrete type is not one of CNAME, TXT, A, AAAA, NS,
SOA, SRV, the data-rewrite step returns the record as it is for every rule, and
the rule loop of a section pass leaves its data unchanged for every rule
list, matching rules included. -/
theorem C12_other_types_untouched (rr : RR) (h : handledType rr.Data = false) :
    (∀ (rule : nameRule) (ruleType : String), rewriteDataParts rr rule ruleType = rr) ∧
    (∀ (rules : List nameRule) (ruleType : String),
      (rewriteRecord rules ruleType rr).Data = rr.Data) := by
  have h1 : ∀ (rule : nameRule) (ruleType : String), rewriteData rr.Data rule ruleType = rr.Data := by
    intro rule ruleType
    obtain ⟨hdr, d⟩ := rr
    cases d <;> simp_all [handledType, rewriteData, rewriteDataParts]
  refine ⟨?_, ?_⟩
  · intro rule ruleType
    rw [rewriteDataParts_eq, h1]
  · intro rules ruleType
    rw [rewriteRecord_eq]
    show rules.foldl (fun d rule => rewriteData d rule ruleType) rr.Data = rr.Data
    induction rules with
    | nil => rfl
    | cons r rs ih => simpa [List.foldl_cons, h1] using ih

/-- An MX record and a PTR record offered to a rule that matches everything. -/
theorem C12_other_types_untouched_witness :
    (rewriteDataParts ⟨⟨"mail.internal.", 15, 1, 300, 0⟩, RData.MX 10 "mx.internal."⟩
        (anyRule "x.example.") answerRule =
      ⟨⟨"mail.internal.", 15, 1, 300, 0⟩, RData.MX 10 "mx.internal."⟩) ∧
    (rewriteRecord [anyRule "x.example.", suffixRule answerRule "internal." "example."]
        answerRule ⟨⟨"5.0.0.10.in-addr.arpa.", 12, 1, 300, 0⟩, RData.PTR "host.internal."⟩).Data =
      RData.PTR "host.internal." :=
  ⟨(C12_other_types_untouched
      ⟨⟨"mail.internal.", 15, 1, 300, 0⟩, RData.MX 10 "mx.internal."⟩ rfl).1 _ _,
   (C12_other_types_untouched
      ⟨⟨"5.0.0.10.in-addr.arpa.", 12, 1, 300, 0⟩, RData.PTR "host.internal."⟩ rfl).2 _ _⟩

/-- C13: for an NS record the data-rewrite step sets the nameserver name, and for
an SRV record the target name, to the rule's data substitution when that is
non-empty and leaves it unchanged otherwise; priority, weight and port of an
SRV record are never changed. -/
theorem C13_ns_srv (rule : nameRule) (ruleType : String) (hdr : RR_Header) :
    (∀ (Ns : String),
      rewriteDataParts ⟨hdr, RData.NS Ns⟩ rule ruleType =
        ⟨hdr, RData.NS
          (if rule.Sub Ns ruleType dataPart ≠ "" then rule.Sub Ns ruleType dataPart else Ns)⟩) ∧
    (∀ (Priority Weight Port : Nat) (Target : String),
      rewriteDataParts ⟨hdr, RData.SRV Priority Weight Port Target⟩ rule ruleType =
        ⟨hdr, RData.SRV Priority Weight Port
          (if rule.Sub Target ruleType dataPart ≠ "" then rule.Sub Target ruleType dataPart
            else Target)⟩) := by
  refine ⟨?_, ?_⟩
  · intro Ns
    simp only [rewriteDataParts]
    split <;> rfl
  · intro Priority Weight Port Target
    simp only [rewriteDataParts]
    split <;> rfl

theorem nameOnlyPass_eq (rules : List nameRule) (ruleType : String) (rr : RR) :
    nameOnlyPass rules ruleType rr =
      { Hdr := { rr.Hdr with Name := specFirstMatchName rules ruleType rr.Hdr.Name },
        Data := rr.Data } := by
  have key : ∀ (rs : List nameRule) (cur : RR) (b : Bool),
      rs.foldl
        (fun (st : RR × Bool) rule =>
          if !st.2 then
            (if rule.Sub rr.Hdr.Name ruleType namePart ≠ "" then
              ({ st.1 with
                 Hdr := { st.1.Hdr with Name := rule.Sub rr.Hdr.Name ruleType namePart } }, true)
            else st)
          else st)
        (cur, b) =
      ({ Hdr := { cur.Hdr with
                  Name := (rs.foldl (nameStep rr.Hdr.Name ruleType) (cur.Hdr.Name, b)).1 },
         Data := cur.Data },
       (rs.foldl (nameStep rr.Hdr.Name ruleType) (cur.Hdr.Name, b)).2) := by
    intro rs
    induction rs with
    | nil => intro cur b; rfl
    | cons r rs ih =>
      intro cur b
      simp only [List.foldl_cons]
      cases b with
      | true => simpa [nameStep] using ih cur true
      | false =>
        by_cases h : r.Sub rr.Hdr.Name ruleType namePart = ""
        · simpa [nameStep, h] using ih cur false
        · simpa [nameStep, h] using ih _ true
  simp only [nameOnlyPass, key, foldl_nameStep_false]

theorem dataOnlyPass_eq (rules : List nameRule) (ruleType : String) (rr : RR) :
    dataOnlyPass rules ruleType rr =
      { Hdr := rr.Hdr,
        Data := rules.foldl (fun d rule => rewriteData d rule ruleType) rr.Data } := by
  simp only [dataOnlyPass]
  induction rules generalizing rr with
  | nil => rfl
  | cons r rs ih =>
    simp only [List.foldl_cons]
    rw [ih, rewriteDataParts_eq]

/-- C14: for every record and rule list, the interleaved rule loop of a section
pass yields the same record as a name-only pass (first match wins) followed by
a data-only pass over all rules; and the data it yields is that of the
data-only pass on the original data under any header, so it does not depend
on the owner name or on which rule rewrote it. -/
theorem C14_interleaved_equals_two_passes (rules : List nameRule) (ruleType : String) (rr : RR) :
    rewriteRecord rules ruleType rr =
        dataOnlyPass rules ruleType (nameOnlyPass rules ruleType rr) ∧
    (∀ hdr : RR_Header,
      (rewriteRecord rules ruleType rr).Data =
        (dataOnlyPass rules ruleType { Hdr := hdr, Data := rr.Data }).Data) := by
  refine ⟨?_, ?_⟩
  · rw [rewriteRecord_eq, nameOnlyPass_eq, dataOnlyPass_eq]
  · intro hdr
    rw [rewriteRecord_eq, dataOnlyPass_eq]

/-- C15: `WriteMsg` returns (having run the section rewrites and the one
transmission call) exactly when the response has at least one question. For a
response with an empty question list it panics with index out of range, and
the state left behind is the message as it was and the handle as it was
(nothing transmitted). With at least one question it returns, and its state is
the finalized message and the handle after one call. With a question in both
the query and the response, construction followed by finalization returns for
every rule list and all records. -/
theorem C15_question_index (r : ResponseRewriter) (res : Msg) :
    ((∃ out, ResponseRewriter.WriteMsg r res = Except.ok out) ↔ res.Question ≠ []) ∧
    (res.Question = [] →
      ResponseRewriter.WriteMsg r res = Except.error Panic.indexOutOfRange ∧
      ResponseRewriter.WriteMsgState r res =
        (res, r.ResponseWriter, Except.error Panic.indexOutOfRange)) ∧
    (res.Question ≠ [] →
      ∃ out, ResponseRewriter.WriteMsg r res = Except.ok out ∧
        ResponseRewriter.WriteMsgState r res =
          (out.msg, out.rewriter.ResponseWriter, Except.ok out.err) ∧
        out.rewriter.ResponseWriter.sent = r.ResponseWriter.sent ++ [out.msg]) ∧
    (∀ (w : ResponseWriter) (q : Msg) (rules : List nameRule),
      q.Question ≠ [] → res.Question ≠ [] →
      ∃ r0 out, NewResponseRewriter w q = Except.ok r0 ∧
        ResponseRewriter.WriteMsg { r0 with Rules := rules } res = Except.ok out) := by
  obtain ⟨hdr, c, qs, an, ns, ex⟩ := res
  cases qs with
  | nil =>
    refine ⟨?_, ?_, ?_, ?_⟩
    · constructor
      · rintro ⟨out, h⟩
        exact absurd h (by simp [ResponseRewriter.WriteMsg])
      · intro h
        exact absurd rfl h
    · intro _
      exact ⟨rfl, rfl⟩
    · intro h
      exact absurd rfl h
    · intro w q rules _ h
      exact absurd rfl h
  | cons b bs =>
    refine ⟨?_, ?_, ?_, ?_⟩
    · constructor
      · intro _
        simp
      · intro _
        exact ⟨_, rfl⟩
    · intro h
      simp at h
    · intro _
      exact ⟨_, rfl, rfl, rfl⟩
    · intro w q rules hq _
      obtain ⟨hdr', c', qs', an', ns', ex'⟩ := q
      cases qs' with
      | nil => exact absurd rfl hq
      | cons a as => exact ⟨_, _, rfl, rfl⟩

/-- The scenario response with its question list emptied panics and leaves
message and handle as they were; the scenario response itself is finalized. -/
theorem C15_question_index_witness :
    ResponseRewriter.WriteMsgState
        { ResponseWriter := scenarioWriter, originalQuestion := ⟨"foo.example.", 5, 1⟩,
          Rules := [suffixRule answerRule "internal." "example."] }
        { scenarioResponse with Question := [] } =
      ({ scenarioResponse with Question := [] }, scenarioWriter,
        Except.error Panic.indexOutOfRange) ∧
    ∃ r0 out, NewResponseRewriter scenarioWriter scenarioQuery = Except.ok r0 ∧
      ResponseRewriter.WriteMsg
        { r0 with Rules := [suffixRule answerRule "internal." "example."] } scenarioResponse =
        Except.ok out :=
  ⟨((C15_question_index _ { scenarioResponse with Question := [] }).2.1 rfl).2,
   (C15_question_index
      { ResponseWriter := scenarioWriter, originalQuestion := ⟨"foo.example.", 5, 1⟩,
        Rules := [] } scenarioResponse).2.2.2 scenarioWriter scenarioQuery _
      (by simp [scenarioQuery]) (by simp [scenarioResponse])⟩

theorem subOrKeep_ne_empty (rule : nameRule) (ruleType part x : String) (h : x ≠ "") :
    subOrKeep rule ruleType part x ≠ "" := by
  unfold subOrKeep
  split
  · assumption
  · exact h

theorem specFirstMatchName_ne_empty (rules : List nameRule) (ruleType name : String)
    (h : name ≠ "") : specFirstMatchName rules ruleType name ≠ "" := by
  unfold specFirstMatchName
  split
  · rename_i rule hfind
    have := List.find?_some hfind
    simpa using this
  · exact h

theorem forall₂_kept_refl (l : List String) :
    List.Forall₂ (fun x y : String => x ≠ "" → y ≠ "") l l := by
  induction l with
  | nil => exact List.Forall₂.nil
  | cons a as ih => exact List.Forall₂.cons (fun h => h) ih

theorem forall₂_kept_trans {l1 l2 l3 : List String}
    (h12 : List.Forall₂ (fun x y : String => x ≠ "" → y ≠ "") l1 l2)
    (h23 : List.Forall₂ (fun x y : String => x ≠ "" → y ≠ "") l2 l3) :
    List.Forall₂ (fun x y : String => x ≠ "" → y ≠ "") l1 l3 := by
  induction h12 generalizing l3 with
  | nil =>
    cases h23
    exact List.Forall₂.nil
  | cons hab _ ih =>
    cases h23 with
    | cons hbc hrest => exact List.Forall₂.cons (fun h => hbc (hab h)) (ih hrest)

theorem forall₂_kept_map (rule : nameRule) (ruleType : String) (l : List String) :
    List.Forall₂ (fun x y : String => x ≠ "" → y ≠ "") l
      (l.map (subOrKeep rule ruleType dataPart)) := by
  induction l with
  | nil => exact List.Forall₂.nil
  | cons a as ih =>
    exact List.Forall₂.cons (subOrKeep_ne_empty rule ruleType dataPart a) ih

theorem dataTextFields_step (rule : nameRule) (ruleType : String) (d : RData) :
    List.Forall₂ (fun x y : String => x ≠ "" → y ≠ "") (dataTextFields d)
      (dataTextFields (rewriteData d rule ruleType)) := by
  cases d with
  | TXT txt =>
    rw [rewriteData_TXT]
    exact forall₂_kept_map rule ruleType txt
  | CNAME t =>
    rw [rewriteData_CNAME]
    exact List.Forall₂.cons (subOrKeep_ne_empty rule ruleType dataPart t) List.Forall₂.nil
  | NS ns =>
    simp only [rewriteData, rewriteDataParts]
    split
    · exact List.Forall₂.cons (fun _ => by assumption) List.Forall₂.nil
    · exact forall₂_kept_refl _
  | SRV p w port t =>
    simp only [rewriteData, rewriteDataParts]
    split
    · exact List.Forall₂.cons (fun _ => by assumption) List.Forall₂.nil
    · exact forall₂_kept_refl _
  | SOA ns mbox a b c d e =>
    simp only [rewriteData, rewriteDataParts, dataTextFields]
    refine List.Forall₂.cons ?_ (List.Forall₂.cons ?_ List.Forall₂.nil)
    · intro h
      split
      · assumption
      · exact h
    · intro h
      split
      · assumption
      · exact h
  | A ip =>
    simp only [rewriteData, rewriteDataParts]
    repeat' split
    all_goals exact List.Forall₂.nil
  | AAAA ip =>
    simp only [rewriteData, rewriteDataParts]
    repeat' split
    all_goals exact List.Forall₂.nil
  | MX p m => exact forall₂_kept_refl _
  | PTR p => exact forall₂_kept_refl _
  | Other c rd => exact forall₂_kept_refl _

theorem dataTextFields_foldl (rules : List nameRule) (ruleType : String) (d : RData) :
    List.Forall₂ (fun x y : String => x ≠ "" → y ≠ "") (dataTextFields d)
      (dataTextFields (rules.foldl (fun d rule => rewriteData d rule ruleType) d)) := by
  induction rules generalizing d with
  | nil => exact forall₂_kept_refl _
  | cons r rs ih =>
    exact forall₂_kept_trans (dataTextFields_step r ruleType d) (ih _)

theorem notBlanked_rewriteRecord (rules : List nameRule) (ruleType : String) (rr : RR) :
    NotBlanked rr (rewriteRecord rules ruleType rr) := by
  rw [rewriteRecord_eq]
  exact List.Forall₂.cons (specFirstMatchName_ne_empty rules ruleType rr.Hdr.Name)
    (dataTextFields_foldl rules ruleType rr.Data)

theorem forall₂_map_right_of_forall {α : Type} (R : α → α → Prop) (f : α → α)
    (h : ∀ a, R a (f a)) (l : List α) : List.Forall₂ R l (l.map f) := by
  induction l with
  | nil => exact List.Forall₂.nil
  | cons a as ih => exact List.Forall₂.cons (h a) ih

/-- C16: for every rule list, every owner name, CNAME or SRV target, NS name, SOA
Ns or Mbox and TXT string that is non-empty before the rule loop of a section
pass is non-empty after it, record by record and field by field, and so it is
after finalization in all three sections; a rule whose replacement is the
empty string leaves the field as it was. -/
theorem C16_never_blanks (r : ResponseRewriter) (res : Msg) (hres : res.Question ≠ []) :
    (∀ (rules : List nameRule) (ruleType : String) (rr : RR),
      NotBlanked rr (rewriteRecord rules ruleType rr)) ∧
    (∃ out, ResponseRewriter.WriteMsg r res = Except.ok out ∧
      List.Forall₂ NotBlanked res.Answer out.msg.Answer ∧
      List.Forall₂ NotBlanked res.Ns out.msg.Ns ∧
      List.Forall₂ NotBlanked res.Extra out.msg.Extra) ∧
    (∀ (ruleType : String) (rr : RR), rewriteRecord [anyRule ""] ruleType rr = rr) := by
  refine ⟨notBlanked_rewriteRecord, ⟨_, WriteMsg_eq r res hres, ?_, ?_, ?_⟩, ?_⟩
  · exact forall₂_map_right_of_forall _ _ (notBlanked_rewriteRecord _ _) _
  · exact forall₂_map_right_of_forall _ _ (notBlanked_rewriteRecord _ _) _
  · exact forall₂_map_right_of_forall _ _ (notBlanked_rewriteRecord _ _) _
  · intro ruleType rr
    exact rewriteRecord_of_no_match _ _ (by simp [anyRule]) (by simp [anyRule]) rr

/-- In the scenario every text field is non-empty before and after; the rule with
the empty replacement changes nothing. -/
theorem C16_never_blanks_witness :
    ∃ out,
      ResponseRewriter.WriteMsg
        { ResponseWriter := scenarioWriter, originalQuestion := ⟨"foo.example.", 5, 1⟩,
          Rules := [anyRule "", suffixRule answerRule "internal." "example."] }
        scopeResponse = Except.ok out ∧
      List.Forall₂ NotBlanked scopeResponse.Answer out.msg.Answer ∧
      List.Forall₂ NotBlanked scopeResponse.Ns out.msg.Ns ∧
      List.Forall₂ NotBlanked scopeResponse.Extra out.msg.Extra :=
  (C16_never_blanks
    { ResponseWriter := scenarioWriter, originalQuestion := ⟨"foo.example.", 5, 1⟩,
      Rules := [anyRule "", suffixRule answerRule "internal." "example."] }
    scopeResponse (by simp [scopeResponse])).2.1

theorem dataFrame_rewriteData (rule : nameRule) (ruleType : String) (d : RData) :
    dataFrame (rewriteData d rule ruleType) = dataFrame d := by
  cases d with
  | TXT txt =>
    rw [rewriteData_TXT]
    simp [dataFrame, List.map_map, Function.comp_def]
  | CNAME t => rw [rewriteData_CNAME]; rfl
  | NS ns =>
    simp only [rewriteData, rewriteDataParts]
    split <;> rfl
  | SRV p w port t =>
    simp only [rewriteData, rewriteDataParts]
    split <;> rfl
  | SOA ns mbox a b c d e => rfl
  | A ip =>
    simp only [rewriteData, rewriteDataParts]
    repeat' split
    all_goals rfl
  | AAAA ip =>
    simp only [rewriteData, rewriteDataParts]
    repeat' split
    all_goals rfl
  | MX p m => rfl
  | PTR p => rfl
  | Other c rd => rfl

theorem dataFrame_foldl (rules : List nameRule) (ruleType : String) (d : RData) :
    dataFrame (rules.foldl (fun d rule => rewriteData d rule ruleType) d) = dataFrame d := by
  induction rules generalizing d with
  | nil => rfl
  | cons r rs ih => simp only [List.foldl_cons, ih, dataFrame_rewriteData]

theorem recordFrame_rewriteRecord (rules : List nameRule) (ruleType : String) (rr : RR) :
    recordFrame (rewriteRecord rules ruleType rr) = recordFrame rr := by
  rw [rewriteRecord_eq]
  simp [recordFrame, dataFrame_foldl]

theorem map_recordFrame_rewriteRecord (rules : List nameRule) (ruleType : String)
    (l : List RR) :
    (l.map (rewriteRecord rules ruleType)).map recordFrame = l.map recordFrame := by
  simp [List.map_map, Function.comp_def, recordFrame_rewriteRecord]

/-- C17: finalization of a response that has a question leaves the message header
(and the compression flag) and the questions at index 1 and above as they
were, keeps the number and order of the records of the Answer, Authority and
Additional sections, and leaves the frame of every record as it was: the
header's type, class, TTL and length, the concrete type of the payload, the
number of TXT strings, the numeric fields of SOA and SRV and the whole payload
of any other type. Only `Question[0]`, owner names and the listed data fields
can differ. -/
theorem C17_frame (r : ResponseRewriter) (res : Msg) (hres : res.Question ≠ []) :
    ∃ out, ResponseRewriter.WriteMsg r res = Except.ok out ∧
      out.msg.MsgHdr = res.MsgHdr ∧ out.msg.Compress = res.Compress ∧
      out.msg.Question.length = res.Question.length ∧
      out.msg.Question.tail = res.Question.tail ∧
      out.msg.Answer.length = res.Answer.length ∧
      out.msg.Ns.length = res.Ns.length ∧
      out.msg.Extra.length = res.Extra.length ∧
      out.msg.Answer.map recordFrame = res.Answer.map recordFrame ∧
      out.msg.Ns.map recordFrame = res.Ns.map recordFrame ∧
      out.msg.Extra.map recordFrame = res.Extra.map recordFrame := by
  refine ⟨_, WriteMsg_eq r res hres, rfl, rfl, ?_, rfl, ?_, ?_, ?_,
    map_recordFrame_rewriteRecord _ _ _, map_recordFrame_rewriteRecord _ _ _,
    map_recordFrame_rewriteRecord _ _ _⟩
  · obtain ⟨hdr, c, qs, an, ns, ex⟩ := res
    cases qs with
    | nil => exact absurd rfl hres
    | cons b bs => rfl
  · simp [finalized]
  · simp [finalized]
  · simp [finalized]

/-- The scenario response with a rule that rewrites names and data in the answer
section: header, questions past the first, section sizes and record frames are
those of the input. -/
theorem C17_frame_witness :
    ∃ out,
      ResponseRewriter.WriteMsg
        { ResponseWriter := scenarioWriter, originalQuestion := ⟨"foo.example.", 5, 1⟩,
          Rules := [suffixRule answerRule "internal." "example."] }
        scopeResponse = Except.ok out ∧
      out.msg.MsgHdr = scopeResponse.MsgHdr ∧ out.msg.Compress = scopeResponse.Compress ∧
      out.msg.Question.length = scopeResponse.Question.length ∧
      out.msg.Question.tail = scopeResponse.Question.tail ∧
      out.msg.Answer.length = scopeResponse.Answer.length ∧
      out.msg.Ns.length = scopeResponse.Ns.length ∧
      out.msg.Extra.length = scopeResponse.Extra.length ∧
      out.msg.Answer.map recordFrame = scopeResponse.Answer.map recordFrame ∧
      out.msg.Ns.map recordFrame = scopeResponse.Ns.map recordFrame ∧
      out.msg.Extra.map recordFrame = scopeResponse.Extra.map recordFrame :=
  C17_frame _ scopeResponse (by simp [scopeResponse])

theorem rewriteTxtReads_append (rule : nameRule) (ruleType : String) :
    ∀ (rest pre : List String),
      rewriteTxtReads rule ruleType rest.length pre.length (pre ++ rest) pre.length = rest := by
  intro rest
  induction rest with
  | nil => intro pre; rfl
  | cons x xs ih =>
    intro pre
    have hget : (pre ++ x :: xs).getD pre.length "" = x := by
      have h : (pre ++ x :: xs)[pre.length]? = some x := by
        rw [List.getElem?_append_right (Nat.le_refl _)]
        simp
      simp [List.getD, h]
    have hset : ∀ v : String, (pre ++ x :: xs).set pre.length v = (pre ++ [v]) ++ xs := by
      intro v
      simp [List.set_append]
    have hlen : ∀ v : String, pre.length + 1 = (pre ++ [v]).length := by
      intro v
      simp
    simp only [List.length_cons, rewriteTxtReads, hget, hset]
    split
    · rw [hlen, ih]
    · rw [hlen, ih]

/-- C18: for every TXT list and rule, the in-place rebuild (appending into the
zero-length prefix of the array being iterated) yields the list obtained by
mapping the per-string substitution over the input, the array ends up fully
rebuilt with `tmpRecs` of the input's length, and every iteration reads the
original element of its index: no element is read after it was overwritten
with another element's result. -/
theorem C18_txt_in_place (rule : nameRule) (ruleType : String) (txt : List String) :
    (rewriteTxtLoop rule ruleType txt.length 0 txt 0).1.take
        (rewriteTxtLoop rule ruleType txt.length 0 txt 0).2 =
      txt.map (fun x =>
        if rule.Sub x ruleType dataPart ≠ "" then rule.Sub x ruleType dataPart else x) ∧
    (rewriteTxtLoop rule ruleType txt.length 0 txt 0).2 = txt.length ∧
    rewriteTxtReads rule ruleType txt.length 0 txt 0 = txt ∧
    (∀ hdr : RR_Header,
      rewriteDataParts ⟨hdr, RData.TXT txt⟩ rule ruleType =
        ⟨hdr, RData.TXT (txt.map (fun x =>
          if rule.Sub x ruleType dataPart ≠ "" then rule.Sub x ruleType dataPart else x))⟩) := by
  refine ⟨?_, ?_, ?_, ?_⟩
  · rw [rewriteTxtLoop_map]
    have h : (List.map (subOrKeep rule ruleType dataPart) txt).length = txt.length := by simp
    simp only [← h, List.take_length]
    rfl
  · rw [rewriteTxtLoop_map]
  · simpa using rewriteTxtReads_append rule ruleType txt []
  · intro hdr
    rw [rewriteDataParts_eq, rewriteData_TXT]
    rfl

/-! ## Lemmas on the passes over shared record objects -/

theorem Heap.set_same (h : Heap) (p : Nat) (v : RR) : Heap.set h p v p = v := by
  simp [Heap.set]

theorem Heap.set_other (h : Heap) (p q : Nat) (v : RR) (hne : q ≠ p) :
    Heap.set h p v q = h q := by
  simp [Heap.set, hne]

theorem rewriteSection_apply (rules : List nameRule) (ruleType : String) :
    ∀ (ps : List Nat) (h : Heap) (p : Nat),
      Ptr.rewriteSection rules ruleType ps h p =
        (rewriteRecord rules ruleType)^[ps.count p] (h p) := by
  intro ps
  induction ps with
  | nil => intro h p; rfl
  | cons q qs ih =>
    intro h p
    simp only [Ptr.rewriteSection]
    rw [ih]
    by_cases hpq : p = q
    · subst hpq
      rw [Heap.set_same, List.count_cons_self, Function.iterate_succ_apply]
    · rw [Heap.set_other _ _ _ _ hpq, List.count_cons_of_ne hpq]

theorem iterate_invariant {α β : Type} (f : α → α) (g : α → β) (hf : ∀ a, g (f a) = g a) :
    ∀ (n : Nat) (a : α), g (f^[n] a) = g a := by
  intro n
  induction n with
  | zero => intro a; rfl
  | succ n ih =>
    intro a
    rw [Function.iterate_succ_apply, ih, hf]

theorem iterate_semiconj {α β : Type} (f : α → α) (k : β → β) (g : α → β)
    (hf : ∀ a, g (f a) = k (g a)) :
    ∀ (n : Nat) (a : α), g (f^[n] a) = k^[n] (g a) := by
  intro n
  induction n with
  | zero => intro a; rfl
  | succ n ih =>
    intro a
    rw [Function.iterate_succ_apply, ih, hf, Function.iterate_succ_apply]

theorem iterate_name (rules : List nameRule) (ruleType : String) (n : Nat) (rr : RR) :
    ((rewriteRecord rules ruleType)^[n] rr).Hdr.Name =
      (specFirstMatchName rules ruleType)^[n] rr.Hdr.Name :=
  iterate_semiconj _ _ (fun rr => rr.Hdr.Name)
    (fun a => by rw [rewriteRecord_eq]) n rr

theorem iterate_data (rules : List nameRule) (ruleType : String) (n : Nat) (rr : RR) :
    ((rewriteRecord rules ruleType)^[n] rr).Data =
      (fun d => rules.foldl (fun d rule => rewriteData d rule ruleType) d)^[n] rr.Data :=
  iterate_semiconj _ _ (fun rr => rr.Data)
    (fun a => by rw [rewriteRecord_eq]) n rr

theorem rewriteSection_name_of_count_one (rules : List nameRule) (ruleType : String)
    (ps : List Nat) (h : Heap) (p : Nat) (hp : ps.count p = 1) :
    (Ptr.rewriteSection rules ruleType ps h p).Hdr.Name =
      specFirstMatchName rules ruleType (h p).Hdr.Name := by
  rw [rewriteSection_apply, hp, Function.iterate_one, rewriteRecord_eq]

theorem rewriteSection_names_of_nodup (rules : List nameRule) (ruleType : String)
    (ps : List Nat) (h : Heap) (hnd : ps.Nodup) :
    (ps.map (Ptr.rewriteSection rules ruleType ps h)).map (fun rr => rr.Hdr.Name) =
      (ps.map h).map (fun rr => specFirstMatchName rules ruleType rr.Hdr.Name) := by
  rw [List.map_map, List.map_map]
  apply List.map_congr_left
  intro p hp
  exact rewriteSection_name_of_count_one rules ruleType ps h p
    (List.count_eq_one_of_mem hnd hp)

/-- C2 (as stated, refuted): with the Answer section listing one record object
twice, a first rule mapping the name x.internal. to y.internal. and a second
mapping y.internal. to z.internal., the owner name after the Answer pass is
z.internal. (two substitutions, the second by a later rule on the already
rewritten name), while the first rule's result on the original name is
y.internal. -/
theorem C2_listed_twice_counterexample :
    (MsgRef.deref twiceListed
        (Ptr.rewriteAnswers
          ⟨scenarioWriter, ⟨"x.internal.", 5, 1⟩,
            [exactRule answerRule namePart "x.internal." "y.internal.",
             exactRule answerRule namePart "y.internal." "z.internal."]⟩
          twiceListed sharedHeap)).Answer.map (fun rr => rr.Hdr.Name) =
      ["z.internal.", "z.internal."] ∧
    (MsgRef.deref twiceListed sharedHeap).Answer.map
        (fun rr => specFirstMatchName
          [exactRule answerRule namePart "x.internal." "y.internal.",
           exactRule answerRule namePart "y.internal." "z.internal."]
          answerRule rr.Hdr.Name) =
      ["y.internal.", "y.internal."] ∧
    ¬ ((MsgRef.deref twiceListed
        (Ptr.rewriteAnswers
          ⟨scenarioWriter, ⟨"x.internal.", 5, 1⟩,
            [exactRule answerRule namePart "x.internal." "y.internal.",
             exactRule answerRule namePart "y.internal." "z.internal."]⟩
          twiceListed sharedHeap)).Answer.map (fun rr => rr.Hdr.Name) =
      (MsgRef.deref twiceListed sharedHeap).Answer.map
        (fun rr => specFirstMatchName
          [exactRule answerRule namePart "x.internal." "y.internal.",
           exactRule answerRule namePart "y.internal." "z.internal."]
          answerRule rr.Hdr.Name)) := by
  refine ⟨by decide, by decide, by decide⟩

/-- C2 (amended): a section pass puts every record object through the rule loop
once per listing of the object in that section, each run reading the owner
name the object then has. Hence, in a section that lists no record object
twice, the owner name of every record after the pass is the `Sub` result, on
the name the record had before the pass under that section's tag and
field-kind name, of the first rule in list order whose result is non-empty,
and that name itself when no rule has a non-empty result. -/
theorem C2_first_match_name_listed_once (r : ResponseRewriter) (res : MsgRef) (h : Heap) :
    (∀ p : Nat,
      Ptr.rewriteAnswers r res h p =
          (rewriteRecord r.Rules answerRule)^[res.Answer.count p] (h p) ∧
      Ptr.rewriteAuthority r res h p =
          (rewriteRecord r.Rules authorityRule)^[res.Ns.count p] (h p) ∧
      Ptr.rewriteAdditional r res h p =
          (rewriteRecord r.Rules additionalRule)^[res.Extra.count p] (h p)) ∧
    (res.Answer.Nodup →
      (MsgRef.deref res (Ptr.rewriteAnswers r res h)).Answer.map (fun rr => rr.Hdr.Name) =
        (MsgRef.deref res h).Answer.map
          (fun rr => specFirstMatchName r.Rules answerRule rr.Hdr.Name)) ∧
    (res.Ns.Nodup →
      (MsgRef.deref res (Ptr.rewriteAuthority r res h)).Ns.map (fun rr => rr.Hdr.Name) =
        (MsgRef.deref res h).Ns.map
          (fun rr => specFirstMatchName r.Rules authorityRule rr.Hdr.Name)) ∧
    (res.Extra.Nodup →
      (MsgRef.deref res (Ptr.rewriteAdditional r res h)).Extra.map (fun rr => rr.Hdr.Name) =
        (MsgRef.deref res h).Extra.map
          (fun rr => specFirstMatchName r.Rules additionalRule rr.Hdr.Name)) := by
  refine ⟨fun p => ⟨rewriteSection_apply _ _ _ _ _, rewriteSection_apply _ _ _ _ _,
    rewriteSection_apply _ _ _ _ _⟩, ?_, ?_, ?_⟩
  · exact fun hA => rewriteSection_names_of_nodup _ _ _ _ hA
  · exact fun hN => rewriteSection_names_of_nodup _ _ _ _ hN
  · exact fun hE => rewriteSection_names_of_nodup _ _ _ _ hE

/-- Three record objects, each listed once: the first rule's result on the
original name is the name after the Answer pass. -/
theorem C2_first_match_name_listed_once_witness :
    (MsgRef.deref listedOnce
        (Ptr.rewriteAnswers
          ⟨scenarioWriter, ⟨"x.internal.", 5, 1⟩,
            [exactRule answerRule namePart "x.internal." "y.internal.",
             exactRule answerRule namePart "y.internal." "z.internal."]⟩
          listedOnce sharedHeap)).Answer.map (fun rr => rr.Hdr.Name) = ["y.internal."] := by
  have h := (C2_first_match_name_listed_once
    ⟨scenarioWriter, ⟨"x.internal.", 5, 1⟩,
      [exactRule answerRule namePart "x.internal." "y.internal.",
       exactRule answerRule namePart "y.internal." "z.internal."]⟩
    listedOnce sharedHeap).2.1 (by decide)
  rw [h]
  decide

theorem Ptr_WriteMsg_eq (r : ResponseRewriter) (res : MsgRef) (h : Heap)
    (hres : res.Question ≠ []) :
    Ptr.WriteMsg r res h =
      Except.ok
        { msg := { res with Question := r.originalQuestion :: res.Question.tail },
          heap := Ptr.finalHeap r res h,
          rewriter :=
            { r with
              ResponseWriter :=
                (r.ResponseWriter.WriteMsg
                  (MsgRef.deref { res with Question := r.originalQuestion :: res.Question.tail }
                    (Ptr.finalHeap r res h))).1 },
          err :=
            (r.ResponseWriter.WriteMsg
              (MsgRef.deref { res with Question := r.originalQuestion :: res.Question.tail }
                (Ptr.finalHeap r res h))).2 } := by
  obtain ⟨hdr, c, qs, an, ns, ex⟩ := res
  cases qs with
  | nil => exact absurd rfl hres
  | cons b bs => rfl

theorem rewriteSection_invariant {β : Type} (rules : List nameRule) (ruleType : String)
    (g : RR → β) (hg : ∀ rr, g (rewriteRecord rules ruleType rr) = g rr)
    (ps : List Nat) (h : Heap) (p : Nat) :
    g (Ptr.rewriteSection rules ruleType ps h p) = g (h p) := by
  rw [rewriteSection_apply]
  exact iterate_invariant _ g hg _ _

theorem rewriteSection_of_not_mem (rules : List nameRule) (ruleType : String)
    (ps : List Nat) (h : Heap) (p : Nat) (hp : p ∉ ps) :
    Ptr.rewriteSection rules ruleType ps h p = h p := by
  rw [rewriteSection_apply, List.count_eq_zero_of_not_mem hp]
  rfl

theorem rewriteSection_of_count_one (rules : List nameRule) (ruleType : String)
    (ps : List Nat) (h : Heap) (p : Nat) (hp : ps.count p = 1) :
    Ptr.rewriteSection rules ruleType ps h p = rewriteRecord rules ruleType (h p) := by
  rw [rewriteSection_apply, hp, Function.iterate_one]

theorem rewriteSection_unchanged (rules : List nameRule) (ruleType sec : String)
    (hscope : ∀ rule ∈ rules, ∀ (x s p : String), s ≠ sec → rule.Sub x s p = "")
    (ps : List Nat) (h : Heap) (p : Nat) (hp : sec ≠ ruleType ∨ p ∉ ps) :
    Ptr.rewriteSection rules ruleType ps h p = h p := by
  rcases hp with hp | hp
  · exact rewriteSection_invariant rules ruleType id
      (fun rr => rewriteRecord_of_no_match rules ruleType
        (fun rule hr x => hscope rule hr x ruleType namePart (Ne.symm hp))
        (fun rule hr x => hscope rule hr x ruleType dataPart (Ne.symm hp)) rr) ps h p
  · exact rewriteSection_of_not_mem rules ruleType ps h p hp

theorem finalHeap_invariant {β : Type} (r : ResponseRewriter) (g : RR → β)
    (hg : ∀ (ruleType : String) (rr : RR), g (rewriteRecord r.Rules ruleType rr) = g rr)
    (res : MsgRef) (h : Heap) (p : Nat) :
    g (Ptr.finalHeap r res h p) = g (h p) := by
  simp only [Ptr.finalHeap, Ptr.rewriteAdditional, Ptr.rewriteAuthority, Ptr.rewriteAnswers]
  rw [rewriteSection_invariant _ _ g (hg _), rewriteSection_invariant _ _ g (hg _),
    rewriteSection_invariant _ _ g (hg _)]

/-- When no record object is listed twice in the message, the passes on record
objects and the passes on record values agree: the message read through the
final heap is the message `WriteMsg` computes on the values, and the handle is
given the same message and returns the same result. -/
theorem Ptr_WriteMsg_unshared (r : ResponseRewriter) (res : MsgRef) (h : Heap)
    (hres : res.Question ≠ []) (hnd : (res.Answer ++ (res.Ns ++ res.Extra)).Nodup) :
    ∃ out outV,
      Ptr.WriteMsg r res h = Except.ok out ∧
      ResponseRewriter.WriteMsg r (MsgRef.deref res h) = Except.ok outV ∧
      MsgRef.deref out.msg out.heap = outV.msg ∧
      out.err = outV.err ∧
      out.rewriter.ResponseWriter = outV.rewriter.ResponseWriter := by
  have hresV : (MsgRef.deref res h).Question ≠ [] := hres
  rw [List.nodup_append] at hnd
  obtain ⟨hA, hNE, hdA⟩ := hnd
  rw [List.nodup_append] at hNE
  obtain ⟨hN, hE, hdN⟩ := hNE
  have hmsg : MsgRef.deref { res with Question := r.originalQuestion :: res.Question.tail }
      (Ptr.finalHeap r res h) = finalized r (MsgRef.deref res h) := by
    simp only [MsgRef.deref, finalized, List.map_map]
    congr 1
    · apply List.map_congr_left
      intro p hp
      have hpN : p ∉ res.Ns := fun hm => hdA hp (List.mem_append_left _ hm)
      have hpE : p ∉ res.Extra := fun hm => hdA hp (List.mem_append_right _ hm)
      simp only [Ptr.finalHeap, Ptr.rewriteAdditional, Ptr.rewriteAuthority, Ptr.rewriteAnswers,
        Function.comp]
      rw [rewriteSection_of_not_mem _ _ _ _ _ hpE, rewriteSection_of_not_mem _ _ _ _ _ hpN,
        rewriteSection_of_count_one _ _ _ _ _ (List.count_eq_one_of_mem hA hp)]
    · apply List.map_congr_left
      intro p hp
      have hpA : p ∉ res.Answer := fun hm => hdA hm (List.mem_append_left _ hp)
      have hpE : p ∉ res.Extra := fun hm => hdN hp hm
      simp only [Ptr.finalHeap, Ptr.rewriteAdditional, Ptr.rewriteAuthority, Ptr.rewriteAnswers,
        Function.comp]
      rw [rewriteSection_of_not_mem _ _ _ _ _ hpE,
        rewriteSection_of_count_one _ _ _ _ _ (List.count_eq_one_of_mem hN hp),
        rewriteSection_of_not_mem _ _ _ _ _ hpA]
    · apply List.map_congr_left
      intro p hp
      have hpA : p ∉ res.Answer := fun hm => hdA hm (List.mem_append_right _ hp)
      have hpN : p ∉ res.Ns := fun hm => hdN hm hp
      simp only [Ptr.finalHeap, Ptr.rewriteAdditional, Ptr.rewriteAuthority, Ptr.rewriteAnswers,
        Function.comp]
      rw [rewriteSection_of_count_one _ _ _ _ _ (List.count_eq_one_of_mem hE hp),
        rewriteSection_of_not_mem _ _ _ _ _ hpN, rewriteSection_of_not_mem _ _ _ _ _ hpA]
  refine ⟨_, _, Ptr_WriteMsg_eq r res h hres, WriteMsg_eq r _ hresV, hmsg, ?_, ?_⟩
  · show (r.ResponseWriter.WriteMsg _).2 = _
    rw [hmsg]
    rfl
  · show (r.ResponseWriter.WriteMsg _).1 = _
    rw [hmsg]
    rfl

theorem rewriteSection_name_restrict (rules : List nameRule) (ruleType : String)
    (ps : List Nat) (h : Heap) (p : Nat) :
    (Ptr.rewriteSection rules ruleType ps h p).Hdr.Name =
      (Ptr.rewriteSection (rules.map (restrictRule ruleType namePart)) ruleType ps h p).Hdr.Name := by
  have hf : specFirstMatchName (rules.map (restrictRule ruleType namePart)) ruleType =
      specFirstMatchName rules ruleType := by
    funext name
    exact specFirstMatchName_restrict rules ruleType name
  rw [rewriteSection_apply, rewriteSection_apply, iterate_name, iterate_name, hf]

theorem rewriteSection_data_restrict (rules : List nameRule) (ruleType : String)
    (ps : List Nat) (h : Heap) (p : Nat) :
    (Ptr.rewriteSection rules ruleType ps h p).Data =
      (Ptr.rewriteSection (rules.map (restrictRule ruleType dataPart)) ruleType ps h p).Data := by
  have hf : (fun d => (rules.map (restrictRule ruleType dataPart)).foldl
        (fun d rule => rewriteData d rule ruleType) d) =
      (fun d => rules.foldl (fun d rule => rewriteData d rule ruleType) d) := by
    funext d
    exact foldl_rewriteData_restrict rules ruleType d
  rw [rewriteSection_apply, rewriteSection_apply, iterate_data, iterate_data, hf]

/-- C10 (as stated, refuted): with one rule scoped to (answer, data) and a record
object listed in both the Answer and the Additional section, finalization
changes the target seen through the Additional section from target.internal.
to target.example.; the Additional records are not left unchanged. -/
theorem C10_listed_in_two_sections_counterexample :
    (∀ (x s p : String), (s ≠ answerRule ∨ p ≠ dataPart) →
      (exactRule answerRule dataPart "target.internal." "target.example.").Sub x s p = "") ∧
    (MsgRef.deref listedInTwoSections scopeHeap).Extra =
      [⟨⟨"bar.internal.", 5, 1, 300, 0⟩, RData.CNAME "target.internal."⟩] ∧
    (∃ out,
      Ptr.WriteMsg
        ⟨scenarioWriter, ⟨"foo.example.", 5, 1⟩,
          [exactRule answerRule dataPart "target.internal." "target.example."]⟩
        listedInTwoSections scopeHeap = Except.ok out ∧
      (MsgRef.deref out.msg out.heap).Extra =
        [⟨⟨"bar.internal.", 5, 1, 300, 0⟩, RData.CNAME "target.example."⟩]) ∧
    ¬ (∃ out,
      Ptr.WriteMsg
        ⟨scenarioWriter, ⟨"foo.example.", 5, 1⟩,
          [exactRule answerRule dataPart "target.internal." "target.example."]⟩
        listedInTwoSections scopeHeap = Except.ok out ∧
      (MsgRef.deref out.msg out.heap).Extra =
        (MsgRef.deref listedInTwoSections scopeHeap).Extra) := by
  refine ⟨fun x s p h => exactRule_scoped _ _ _ _ x s p h, by decide, ⟨_, rfl, by decide⟩, ?_⟩
  rintro ⟨out, hout, hextra⟩
  rw [Ptr_WriteMsg_eq _ _ _ (by simp [listedInTwoSections])] at hout
  have hm := congrArg OutcomeRef.msg (Except.ok.inj hout)
  have hh := congrArg OutcomeRef.heap (Except.ok.inj hout)
  rw [← hm, ← hh] at hextra
  revert hextra
  decide

/-- C10 (amended): each section pass consults the rules only under its own
section tag, for owner names only with field-kind name and for data only with
field-kind data (replacing every rule by its restriction to that tag pair
changes nothing). Hence, when every rule of the list returns "no match" for
every call whose (section, field-kind) tags differ from the pair `(sec, kind)`,
finalization leaves the sections' listings as they were and changes no record
object other than those listed in the section tagged `sec` (an object listed
there shows its change through every listing, in whatever section); no owner
name changes when `kind` is not name, no data when `kind` is not data, and
type, class, TTL and length of every record header stay as they were. -/
theorem C10_rule_scope_shared (r : ResponseRewriter) (res : MsgRef) (h : Heap)
    (sec kind : String) (hres : res.Question ≠ [])
    (hscope : ∀ rule ∈ r.Rules, ∀ (x s p : String), (s ≠ sec ∨ p ≠ kind) → rule.Sub x s p = "") :
    (∀ p : Nat,
      (Ptr.rewriteAnswers r res h p).Hdr.Name =
        (Ptr.rewriteAnswers { r with Rules := r.Rules.map (restrictRule answerRule namePart) }
          res h p).Hdr.Name ∧
      (Ptr.rewriteAnswers r res h p).Data =
        (Ptr.rewriteAnswers { r with Rules := r.Rules.map (restrictRule answerRule dataPart) }
          res h p).Data ∧
      (Ptr.rewriteAuthority r res h p).Hdr.Name =
        (Ptr.rewriteAuthority { r with Rules := r.Rules.map (restrictRule authorityRule namePart) }
          res h p).Hdr.Name ∧
      (Ptr.rewriteAuthority r res h p).Data =
        (Ptr.rewriteAuthority { r with Rules := r.Rules.map (restrictRule authorityRule dataPart) }
          res h p).Data ∧
      (Ptr.rewriteAdditional r res h p).Hdr.Name =
        (Ptr.rewriteAdditional
          { r with Rules := r.Rules.map (restrictRule additionalRule namePart) }
          res h p).Hdr.Name ∧
      (Ptr.rewriteAdditional r res h p).Data =
        (Ptr.rewriteAdditional
          { r with Rules := r.Rules.map (restrictRule additionalRule dataPart) }
          res h p).Data) ∧
    ∃ out,
      Ptr.WriteMsg r res h = Except.ok out ∧
      out.msg.Answer = res.Answer ∧ out.msg.Ns = res.Ns ∧ out.msg.Extra = res.Extra ∧
      (∀ p : Nat,
        (sec ≠ answerRule ∨ p ∉ res.Answer) →
        (sec ≠ authorityRule ∨ p ∉ res.Ns) →
        (sec ≠ additionalRule ∨ p ∉ res.Extra) →
        out.heap p = h p) ∧
      (kind ≠ namePart → ∀ p : Nat, (out.heap p).Hdr.Name = (h p).Hdr.Name) ∧
      (kind ≠ dataPart → ∀ p : Nat, (out.heap p).Data = (h p).Data) ∧
      (∀ p : Nat,
        ((out.heap p).Hdr.Rrtype, (out.heap p).Hdr.Class, (out.heap p).Hdr.Ttl,
            (out.heap p).Hdr.Rdlength) =
          ((h p).Hdr.Rrtype, (h p).Hdr.Class, (h p).Hdr.Ttl, (h p).Hdr.Rdlength)) := by
  have hsec : ∀ rule ∈ r.Rules, ∀ (x s p : String), s ≠ sec → rule.Sub x s p = "" :=
    fun rule hr x s p hs => hscope rule hr x s p (Or.inl hs)
  have hkN : kind ≠ namePart → ∀ tag, ∀ rule ∈ r.Rules, ∀ x, rule.Sub x tag namePart = "" :=
    fun hk tag rule hr x => hscope rule hr x tag namePart (Or.inr (Ne.symm hk))
  have hkD : kind ≠ dataPart → ∀ tag, ∀ rule ∈ r.Rules, ∀ x, rule.Sub x tag dataPart = "" :=
    fun hk tag rule hr x => hscope rule hr x tag dataPart (Or.inr (Ne.symm hk))
  refine ⟨fun p => ⟨rewriteSection_name_restrict _ _ _ _ _, rewriteSection_data_restrict _ _ _ _ _,
      rewriteSection_name_restrict _ _ _ _ _, rewriteSection_data_restrict _ _ _ _ _,
      rewriteSection_name_restrict _ _ _ _ _, rewriteSection_data_restrict _ _ _ _ _⟩,
    _, Ptr_WriteMsg_eq r res h hres, rfl, rfl, rfl, ?_, ?_, ?_, ?_⟩
  · intro p hA hN hE
    show Ptr.finalHeap r res h p = h p
    simp only [Ptr.finalHeap, Ptr.rewriteAdditional, Ptr.rewriteAuthority, Ptr.rewriteAnswers]
    rw [rewriteSection_unchanged _ _ sec hsec _ _ _ hE,
      rewriteSection_unchanged _ _ sec hsec _ _ _ hN,
      rewriteSection_unchanged _ _ sec hsec _ _ _ hA]
  · intro hk p
    exact finalHeap_invariant r (fun rr => rr.Hdr.Name)
      (fun tag rr => rewriteRecord_name_of_no_match r.Rules tag (hkN hk tag) rr) res h p
  · intro hk p
    exact finalHeap_invariant r (fun rr => rr.Data)
      (fun tag rr => rewriteRecord_data_of_no_match r.Rules tag (hkD hk tag) rr) res h p
  · intro p
    exact finalHeap_invariant r
      (fun rr => (rr.Hdr.Rrtype, rr.Hdr.Class, rr.Hdr.Ttl, rr.Hdr.Rdlength))
      (fun tag rr => by rw [rewriteRecord_eq]) res h p

/-- An (answer, data) rule on a response whose Answer and Additional sections
share a record object: the object listed only in the Authority section is
untouched, no owner name changes, and the shared object's target changes. -/
theorem C10_rule_scope_shared_witness :
    ∃ out,
      Ptr.WriteMsg
        ⟨scenarioWriter, ⟨"foo.example.", 5, 1⟩,
          [exactRule answerRule dataPart "target.internal." "target.example."]⟩
        listedInTwoSections scopeHeap = Except.ok out ∧
      out.heap 1 = scopeHeap 1 ∧
      (out.heap 0).Hdr.Name = "bar.internal." ∧
      (out.heap 0).Data = RData.CNAME "target.example." := by
  obtain ⟨-, out, h1, -, -, -, h5, h6, -, -⟩ :=
    C10_rule_scope_shared
      ⟨scenarioWriter, ⟨"foo.example.", 5, 1⟩,
        [exactRule answerRule dataPart "target.internal." "target.example."]⟩
      listedInTwoSections scopeHeap answerRule dataPart (by simp [listedInTwoSections])
      (by
        intro rule hr x s p h
        rw [List.mem_singleton] at hr
        subst hr
        exact exactRule_scoped _ _ _ _ x s p h)
  refine ⟨out, h1, h5 1 (Or.inr (by decide)) (Or.inl (by decide)) (Or.inr (by decide)),
    h6 (by decide) 0, ?_⟩
  rw [Ptr_WriteMsg_eq _ _ _ (by simp [listedInTwoSections])] at h1
  rw [← congrArg OutcomeRef.heap (Except.ok.inj h1)]
  decide

end Rewriteng
